import Mathlib

set_option maxHeartbeats 1000000

/-!
Verification development for the SimpleTranslator repository's matching-game
engine and history/search data-access layer.

The JavaScript source is shallowly embedded: DOM card elements become a
`Card` structure whose class list is a set of boolean flags, the closure-held
round state (`firstCard`, `secondCard`, `lockBoard`, `flipTimer`,
`matchedCount`) becomes an explicit `GameState`, and the two `setTimeout`
callbacks become explicit timer-firing events.  Randomness
(`array.sort(() => 0.5 - Math.random())`) is modelled by an oracle function
assumed only to permute its input, mirroring the fact that an ECMAScript
sort with an inconsistent comparator returns an implementation-defined
reordering of the array's elements.
-/

namespace SimpleTranslator

/-- A translation record as consumed by the game client: the `/read` endpoint
returns documents with `input` and `output` fields (plus language codes and an
id, which the game never touches). -/
structure Translation where
  input : String
  output : String
deriving DecidableEq, Repr

/-- Card states named by the specification.  In the DOM a card's state is
carried by its class list; `Card.state` maps the class flags back to this
enumeration. -/
inductive CardState
  | Initial
  | Hidden
  | Revealed
  | Matched
deriving DecidableEq, Repr

/-- One card `div` of the game board.  `initialCls`, `hiddenCls`,
`flippedCls`, `matchedCls` model membership of the classes
`initial`, `hidden`, `flipped`, `matched` in `classList` (the constant
`box` class is omitted); `text` models `textContent`; `hasListener` models
whether the `flipCard` click listener is currently attached. -/
structure Card where
  id : String
  content : String
  initialCls : Bool
  hiddenCls : Bool
  flippedCls : Bool
  matchedCls : Bool
  text : String
  hasListener : Bool
deriving DecidableEq, Repr

/-- The specification's card-state enumeration read off the class flags.
A matched card keeps its `flipped` class in the DOM, so `matched` takes
precedence; `flipped` (shown) takes precedence over `hidden`. -/
def Card.state (c : Card) : CardState :=
  if c.matchedCls then .Matched
  else if c.flippedCls then .Revealed
  else if c.hiddenCls then .Hidden
  else .Initial

/-- Embedding of `createBox(content, id)`: a fresh `div` with classes
`box, initial`, `dataset.id = id`, `dataset.content = content`,
`textContent = content`, and no click listener yet. -/
def createBox (content : String) (id : String) : Card :=
  { id := id, content := content, initialCls := true, hiddenCls := false,
    flippedCls := false, matchedCls := false, text := content,
    hasListener := false }

/-- Embedding of the card-construction loop of `initializeGame`
(`selectedTranslations.forEach((translation, index) => { cards.push(createBox
(translation.input, input-index)); cards.push(createBox(translation.output,
output-index)); })`), with the running index made explicit. -/
def buildBoardFrom (i : Nat) : List Translation → List Card
  | [] => []
  | t :: ts =>
      createBox t.input ("input-" ++ Nat.repr i) ::
      createBox t.output ("output-" ++ Nat.repr i) ::
      buildBoardFrom (i + 1) ts

/-- The board builder: the card list built from the selected pairs, before
the display shuffle.  (The specification calls this `buildBoard`.) -/
def buildBoard (pairs : List Translation) : List Card :=
  buildBoardFrom 0 pairs

/-- One entry of the JavaScript `Map` built in `initializeGame`. -/
abbrev MapEntry := String × Translation

/-- Embedding of `Map.prototype.set`: if the key is present its value is
overwritten in place (key order preserved), otherwise the entry is appended. -/
def mapSet (m : List MapEntry) (k : String) (v : Translation) : List MapEntry :=
  match m with
  | [] => [(k, v)]
  | (k', v') :: rest =>
      if k' = k then (k', v) :: rest else (k', v') :: mapSet rest k v

/-- Folding `Map.prototype.set` over a record list, as done by
`new Map(translations.map(item => [item.input, item]))`. -/
def mapSetAll (m : List MapEntry) : List Translation → List MapEntry
  | [] => m
  | t :: ts => mapSetAll (mapSet m t.input t) ts

/-- Embedding of
`[...new Map(translations.map(item => [item.input, item])).values()]`:
deduplication by `input`, with JavaScript `Map` semantics (first-occurrence
key order, last-occurrence value). -/
def uniqueTranslations (translations : List Translation) : List Translation :=
  (mapSetAll [] translations).map Prod.snd

/-- Embedding of `getRandomSubset(array, size)`: shuffle, then `slice(0, size)`.
The shuffle is an oracle parameter (see the file header). -/
def getRandomSubset (shuffle : List Translation → List Translation)
    (array : List Translation) (size : Nat) : List Translation :=
  (shuffle array).take size

/-- Result of `initializeGame`, seen at the specification's level: either the
InsufficientData path (message shown, board disabled, no round built) or a
built round, carrying the selected pairs and the shuffled display card list. -/
inductive GameInit
  | insufficientData (message : String)
  | board (selected : List Translation) (cards : List Card)
deriving DecidableEq, Repr

/-- The user-facing message of the InsufficientData path. -/
def notEnoughMsg : String := "Not enough words to play. Please save more words."

/-- Embedding of the round-construction part of `initializeGame`:
deduplicate by input, refuse with a message when fewer than 3 unique inputs
remain, otherwise pick `numPairs = Math.min(6, Math.max(3, length))` random
pairs, build the cards and shuffle them for display.  The two shuffle oracles
stand for the two `shuffleArray` call sites. -/
def initializeGame (shuffleT : List Translation → List Translation)
    (shuffleB : List Card → List Card)
    (translations : List Translation) : GameInit :=
  let uniq := uniqueTranslations translations
  if uniq.length < 3 then
    .insufficientData notEnoughMsg
  else
    let numPairs := min 6 (max 3 uniq.length)
    let selectedTranslations := getRandomSubset shuffleT uniq numPairs
    let cards := buildBoard selectedTranslations
    .board selectedTranslations (shuffleB cards)

/-- Embedding of the client's `fetchTranslations`: the argument is the
outcome of `fetch('/read?n=50')` (`none` models a network error, a non-ok
response or a JSON parse failure, all caught by the `try/catch`); on failure
the function logs and resolves to the empty array. -/
def fetchTranslations (response : Option (List Translation)) : List Translation :=
  match response with
  | some translations => translations
  | none => []

/-- The limit the client requests from the history endpoint (`/read?n=50`). -/
def historyFetchLimit : Nat := 50

/-- Reference delay before Initial-state cards are hidden (`setTimeout(..., 4000)`). -/
def revealDelayMs : Nat := 4000

/-- Reference auto-hide delay for a lone first selection (`setTimeout(..., 2000)`). -/
def autoHideDelayMs : Nat := 2000

/-- Reference mismatch-resolution delay (`setTimeout(..., 500)`). -/
def mismatchDelayMs : Nat := 500

/-- Splitting a character list at each `'-'`, the semantics of the
JavaScript `split('-')` with its one-character separator (structurally
recursive so that concrete boards evaluate inside the kernel). -/
def splitOnDash : List Char → List (List Char)
  | [] => [[]]
  | c :: cs =>
      if c = '-' then [] :: splitOnDash cs
      else
        match splitOnDash cs with
        | [] => [[c]]
        | seg :: segs => (c :: seg) :: segs

/-- Embedding of `dataset.id.split('-')[1]`: the pair-identifier part of a
card id.  (JavaScript yields `undefined` past the end of the split; both
selected cards always carry ids of the shape `side-index`, so the default
`""` is never compared against a real key.) -/
def pairKey (id : String) : String :=
  ((splitOnDash id.data).getD 1 []).asString

/-- The per-round mutable state held in closure variables by
`initializeGame`, made explicit.  `firstCard` and `secondCard` hold card
indices into `cards` (DOM element identity becomes index identity);
`flipTimer` tells whether the auto-hide timer is pending, and
`mismatchPending` whether the 500 ms mismatch-resolution timeout is pending.
`won` models the winner message (and restart button) having been shown. -/
structure GameState where
  cards : List Card
  firstCard : Option Nat
  secondCard : Option Nat
  lockBoard : Bool
  flipTimer : Bool
  mismatchPending : Bool
  matchedCount : Nat
  won : Bool
deriving DecidableEq, Repr

/-- Update the card at index `i` (out-of-range indices leave the list
unchanged; they correspond to no DOM element at all). -/
def modifyCard (cs : List Card) (i : Nat) (f : Card → Card) : List Card :=
  match cs[i]? with
  | some c => cs.set i (f c)
  | none => cs

/-- The id of the card at index `j` (ids are never mutated). -/
def idAt (cs : List Card) (j : Nat) : String :=
  ((cs[j]?).map Card.id).getD ""

/-- Card effect of being selected: add `flipped`, remove `hidden`, show the
content. -/
def revealCard (c : Card) : Card :=
  { c with flippedCls := true, hiddenCls := false, text := c.content }

/-- Card effect of being hidden again: remove `flipped`, add `hidden`, clear
the text. -/
def hideCard (c : Card) : Card :=
  { c with flippedCls := false, hiddenCls := true, text := "" }

/-- Card effect of a successful match: add `matched` and detach the click
listener (`removeEventListener('click', flipCard)`). -/
def matchCard (c : Card) : Card :=
  { c with matchedCls := true, hasListener := false }

/-- Embedding of `resetBoard()`:
`[firstCard, secondCard, lockBoard] = [null, null, false]`. -/
def resetBoard (s : GameState) : GameState :=
  { s with firstCard := none, secondCard := none, lockBoard := false }

/-- Embedding of the `flipCard` click handler, invoked on a click on card
`i`.  A card whose listener has been removed does not run the handler at
all.  Otherwise the handler follows the source line by line: the
lock/first-card guard, `clearTimeout(flipTimer)`, revealing the card, then
either recording a first selection (arming the auto-hide timer) or resolving
the pair (match: mark both matched, detach their listeners, bump
`matchedCount`, possibly show the winner message, reset the board;
mismatch: leave the board locked and arm the 500 ms timeout). -/
def flipCard (s : GameState) (i : Nat) : GameState :=
  match s.cards[i]? with
  | none => s
  | some c =>
    if c.hasListener = false then s
    else if s.lockBoard = true ∨ s.firstCard = some i then s
    else
      let s1 : GameState :=
        { s with flipTimer := false, cards := modifyCard s.cards i revealCard }
      match s.firstCard with
      | none => { s1 with firstCard := some i, flipTimer := true }
      | some j =>
        let s2 : GameState := { s1 with secondCard := some i, lockBoard := true }
        if pairKey (idAt s2.cards j) = pairKey c.id then
          let cs3 := modifyCard (modifyCard s2.cards j matchCard) i matchCard
          let mc := s2.matchedCount + 2
          let w : Bool := if mc = cs3.length then true else s2.won
          resetBoard { s2 with cards := cs3, matchedCount := mc, won := w }
        else
          { s2 with mismatchPending := true }

/-- Firing of the pending 2000 ms auto-hide timer.  The callback reads the
`firstCard` closure variable at firing time, hides that card and clears the
slot.  A timer that is not pending cannot fire.  (The `none` fallback
corresponds to the callback dereferencing a null `firstCard`, which the
reachability invariant below proves impossible.) -/
def fireFlipTimer (s : GameState) : GameState :=
  if s.flipTimer = true then
    match s.firstCard with
    | some j =>
        { s with cards := modifyCard s.cards j hideCard,
                 firstCard := none, flipTimer := false }
    | none => { s with flipTimer := false }
  else s

/-- Firing of the pending 500 ms mismatch timeout: hide both selected cards
and run `resetBoard()`.  As above, the callback reads the closure variables
at firing time, and the fallbacks are proved unreachable. -/
def fireMismatchTimer (s : GameState) : GameState :=
  if s.mismatchPending = true then
    match s.firstCard, s.secondCard with
    | some j, some i =>
        resetBoard
          { s with cards := modifyCard (modifyCard s.cards j hideCard) i hideCard,
                   mismatchPending := false }
    | _, _ => { s with mismatchPending := false }
  else s

/-- The discrete events a round reacts to: a click on card `i`, the auto-hide
timer firing, the mismatch timeout firing.  Timer events are no-ops unless
the corresponding timer is pending, so quantifying over all event sequences
covers every real schedule. -/
inductive GEvent
  | click (i : Nat)
  | autoHide
  | mismatchTimeout
deriving DecidableEq, Repr

/-- One event transition. -/
def step (s : GameState) : GEvent → GameState
  | .click i => flipCard s i
  | .autoHide => fireFlipTimer s
  | .mismatchTimeout => fireMismatchTimer s

/-- Run a round from state `s` through a sequence of events. -/
def run (s : GameState) (es : List GEvent) : GameState :=
  es.foldl step s

/-- Card effect of the 4000 ms reveal-delay callback: remove `initial`, add
`hidden`, clear the text; afterwards the click listener is attached. -/
def setupCard (c : Card) : Card :=
  { c with initialCls := false, hiddenCls := true, text := "",
           hasListener := true }

/-- The state of a round at the moment the reveal delay has elapsed: every
card hidden and clickable, empty selection slots, unlocked board, no pending
timers, `matchedCount = 0`. -/
def startRound (cards : List Card) : GameState :=
  { cards := cards.map setupCard, firstCard := none, secondCard := none,
    lockBoard := false, flipTimer := false, mismatchPending := false,
    matchedCount := 0, won := false }

/-- Number of cards currently in Revealed state. -/
def revealedCount (s : GameState) : Nat :=
  s.cards.countP (fun c => c.state == CardState.Revealed)

/-- Number of cards currently carrying the `matched` class. -/
def matchedCards (s : GameState) : Nat :=
  s.cards.countP (fun c => c.matchedCls)

/-- The number of distinct input texts in a record list. -/
def distinctInputCount (translations : List Translation) : Nat :=
  ((translations.map Translation.input).dedup).length

/-! ### The history store (`db.js`)

PouchDB stores documents under string `_id` keys; `allDocs` enumerates them
in key order, where plain ASCII keys collate character by character (so the
decimal id `"10"` sorts before `"2"`).  The store is modelled as the list of
its documents, and `allDocs({descending: true, limit: n})` as a descending
insertion sort by `_id` followed by `take n`. -/

/-- One document of the `translation-history` PouchDB database. -/
structure StoredDoc where
  _id : String
  input : String
  output : String
  lang_in : String
  lang_out : String
deriving DecidableEq, Repr

/-- Lexicographic (codepoint-wise) order on character lists: the collation
PouchDB applies to plain ASCII `_id` keys. -/
def strLtB : List Char → List Char → Bool
  | [], [] => false
  | [], _ :: _ => true
  | _ :: _, [] => false
  | a :: as, b :: bs =>
      if a.toNat < b.toNat then true
      else if b.toNat < a.toNat then false
      else strLtB as bs

/-- Key order on document ids. -/
def idLt (a b : String) : Bool := strLtB a.data b.data

/-- Insert a document into a list kept in descending `_id` (string) order. -/
def insertDesc (d : StoredDoc) : List StoredDoc → List StoredDoc
  | [] => [d]
  | e :: es => if idLt e._id d._id then d :: e :: es else e :: insertDesc d es

/-- The rows of `db.allDocs({descending: true})`: all documents in descending
string order of their `_id` keys. -/
def sortDesc (db : List StoredDoc) : List StoredDoc :=
  db.foldr insertDesc []

/-- Embedding of `loadHistory(n)`:
`db.allDocs({include_docs: true, descending: true, limit: n})`, then map each
row to its document.  (On a database error the function throws; the engine's
retrieval wrapper `fetchTranslations` is what converts the resulting failed
HTTP response into an empty list.) -/
def loadHistory (db : List StoredDoc) (n : Nat) : List StoredDoc :=
  (sortDesc db).take n

/-- Numeric value of a decimal digit character (JavaScript
`parseInt` on the canonical ids stored by `nextID`). -/
def decDigit (c : Char) : Nat := c.toNat - 48

/-- Accumulating decimal evaluation of a digit string. -/
def decValAux (a : Nat) : List Char → Nat
  | [] => a
  | c :: cs => decValAux (a * 10 + decDigit c) cs

/-- Decimal value of a digit string. -/
def decVal (l : List Char) : Nat := decValAux 0 l

/-- JavaScript `parseInt` restricted to the canonical decimal id strings the
store produces. -/
def jsParseInt (s : String) : Nat := decVal s.data

/-- Embedding of `nextID()`: take the first row of
`allDocs({descending: true, limit: 1})`; if the store is empty the id is
`"0"`, otherwise `(parseInt(lastId) + 1).toString()`. -/
def nextID (db : List StoredDoc) : String :=
  match sortDesc db with
  | [] => Nat.repr 0
  | d :: _ => Nat.repr (jsParseInt d._id + 1)

/-! ### Search (`searchTranslations`)

`searchTranslations` builds `new RegExp(searchText, 'i')` and selects the
documents whose `input` field the regex matches (pouchdb-find's `$regex`
tests the regex against the field, unanchored).  The JavaScript regex
dialect is modelled on the fragment the repository's data can exercise:
literal characters, the wildcard `.` and the postfix repetition `*`, with
the `i` flag rendered as case folding of both sides. -/

/-- Case-insensitive match of one pattern atom against one character; `.`
matches any character. -/
def charMatch (p c : Char) : Bool :=
  p == '.' || p.toLower == c.toLower

/-- Anchored regex match, driven by a fuel argument that dominates the
lexicographic measure (pattern length, subject length); structural recursion
on the fuel keeps the function kernel-reducible on concrete search texts. -/
def regexMatchFuel : Nat → List Char → List Char → Bool
  | 0, _, _ => false
  | _ + 1, [], _ => true
  | fuel + 1, p :: '*' :: ps, s =>
      regexMatchFuel fuel ps s ||
      (match s with
       | [] => false
       | c :: cs => charMatch p c && regexMatchFuel fuel (p :: '*' :: ps) cs)
  | _ + 1, _ :: _, [] => false
  | fuel + 1, p :: ps, c :: cs => charMatch p c && regexMatchFuel fuel ps cs

/-- Anchored regex match: does some prefix of `s` match the pattern?  Every
recursive step shrinks `p.length + s.length`, so this fuel is enough. -/
def regexMatchAt (p s : List Char) : Bool :=
  regexMatchFuel (p.length + s.length + 1) p s

/-- Unanchored regex search (JavaScript `RegExp.prototype.test`): the pattern
may match starting at any position of `s`. -/
def regexSearch (p : List Char) : List Char → Bool
  | [] => regexMatchAt p []
  | c :: cs => regexMatchAt p (c :: cs) || regexSearch p cs

/-- Embedding of `searchTranslations(searchText)`: the documents whose
`input` matches `new RegExp(searchText, 'i')`. -/
def searchTranslations (db : List StoredDoc) (searchText : String) : List StoredDoc :=
  db.filter (fun d => regexSearch searchText.data d.input.data)

/-- Literal (case-sensitive) substring test, used to contrast the regex
interpretation of the search text with a plain substring search. -/
def isLiteralSubstring (p s : List Char) : Bool :=
  (List.range (s.length + 1)).any (fun i => ((s.drop i).take p.length) == p)

/-! ### Decimal rendering

The card ids `input-i` / `output-i` and the store ids use `Nat.repr`; the
following round-trip shows `Nat.repr` injective, which in turn shows the
card ids pairwise distinct. -/

theorem decValAux_append (a : Nat) (l l' : List Char) :
    decValAux a (l ++ l') = decValAux (decValAux a l) l' := by
  induction l generalizing a with
  | nil => rfl
  | cons c cs ih =>
    show decValAux (a * 10 + decDigit c) (cs ++ l')
        = decValAux (decValAux (a * 10 + decDigit c) cs) l'
    exact ih _

theorem decDigit_digitChar : ∀ m : Nat, m < 10 → decDigit (Nat.digitChar m) = m := by
  decide

theorem toDigitsCore_acc (fuel : Nat) :
    ∀ (n : Nat) (ds : List Char),
      Nat.toDigitsCore 10 fuel n ds = Nat.toDigitsCore 10 fuel n [] ++ ds := by
  induction fuel with
  | zero => intro n ds; simp [Nat.toDigitsCore]
  | succ f ih =>
    intro n ds
    by_cases h : n / 10 = 0
    · simp [Nat.toDigitsCore, h]
    · simp only [Nat.toDigitsCore, if_neg h]
      rw [ih (n / 10) (Nat.digitChar (n % 10) :: ds),
        ih (n / 10) [Nat.digitChar (n % 10)]]
      simp

theorem toDigitsCore_succ (f n : Nat) (ds : List Char) :
    Nat.toDigitsCore 10 (f + 1) n ds =
      if n / 10 = 0 then Nat.digitChar (n % 10) :: ds
      else Nat.toDigitsCore 10 f (n / 10) (Nat.digitChar (n % 10) :: ds) := rfl

theorem decVal_toDigitsCore (fuel : Nat) :
    ∀ n : Nat, n < fuel → decVal (Nat.toDigitsCore 10 fuel n []) = n := by
  induction fuel with
  | zero => intro n h; omega
  | succ f ih =>
    intro n h
    by_cases h0 : n / 10 = 0
    · rw [toDigitsCore_succ, if_pos h0]
      have e1 : decVal [Nat.digitChar (n % 10)]
          = 0 * 10 + decDigit (Nat.digitChar (n % 10)) := rfl
      rw [e1, decDigit_digitChar _ (Nat.mod_lt _ (by norm_num))]
      omega
    · rw [toDigitsCore_succ, if_neg h0, toDigitsCore_acc]
      have hlt : n / 10 < f := by
        have h1 : 0 < n := by omega
        have := Nat.div_lt_self h1 (by norm_num : 1 < 10)
        omega
      have e3 := decValAux_append 0 (Nat.toDigitsCore 10 f (n / 10) [])
        [Nat.digitChar (n % 10)]
      change decValAux 0 _ = n
      rw [e3]
      have e4 : decValAux 0 (Nat.toDigitsCore 10 f (n / 10) []) = n / 10 := ih _ hlt
      rw [e4]
      have e5 : decValAux (n / 10) [Nat.digitChar (n % 10)]
          = (n / 10) * 10 + decDigit (Nat.digitChar (n % 10)) := rfl
      rw [e5, decDigit_digitChar _ (Nat.mod_lt _ (by norm_num))]
      omega

theorem decVal_toDigits (n : Nat) : decVal (Nat.toDigits 10 n) = n :=
  decVal_toDigitsCore (n + 1) n (Nat.lt_succ_self n)

theorem jsParseInt_repr (n : Nat) : jsParseInt (Nat.repr n) = n := by
  have h : (Nat.repr n).data = Nat.toDigits 10 n := rfl
  simp only [jsParseInt, h]
  exact decVal_toDigits n

theorem natRepr_inj {m n : Nat} (h : Nat.repr m = Nat.repr n) : m = n := by
  have := congrArg jsParseInt h
  rwa [jsParseInt_repr, jsParseInt_repr] at this

theorem string_append_right_inj {x a b : String} (h : x ++ a = x ++ b) : a = b := by
  apply String.ext
  have hd := congrArg String.data h
  simp only [String.data_append] at hd
  exact List.append_cancel_left hd

theorem inputId_inj {a b : Nat} (h : ("input-" ++ Nat.repr a) = ("input-" ++ Nat.repr b)) :
    a = b :=
  natRepr_inj (string_append_right_inj h)

theorem outputId_inj {a b : Nat} (h : ("output-" ++ Nat.repr a) = ("output-" ++ Nat.repr b)) :
    a = b :=
  natRepr_inj (string_append_right_inj h)

theorem inputId_ne_outputId (a b : Nat) :
    ("input-" ++ Nat.repr a) ≠ ("output-" ++ Nat.repr b) := by
  intro h
  have hd := congrArg String.data h
  simp [String.data_append] at hd

/-! ### List helpers -/

theorem countP_set_balance {α : Type} (p : α → Bool) (cs : List α) :
    ∀ (i : Nat) (a c : α), cs[i]? = some c →
      (cs.set i a).countP p + (if p c then 1 else 0)
        = cs.countP p + (if p a then 1 else 0) := by
  induction cs with
  | nil => intro i a c h; simp at h
  | cons x xs ih =>
    intro i a c h
    cases i with
    | zero =>
      simp only [List.getElem?_cons_zero, Option.some.injEq] at h
      subst h
      simp only [List.set, List.countP_cons]
      omega
    | succ n =>
      simp only [List.getElem?_cons_succ] at h
      simp only [List.set, List.countP_cons]
      have := ih n a c h
      omega

theorem length_modifyCard (cs : List Card) (i : Nat) (f : Card → Card) :
    (modifyCard cs i f).length = cs.length := by
  unfold modifyCard
  cases h : cs[i]? with
  | none => rfl
  | some c => simp [List.length_set]

theorem getElem?_modifyCard_self {cs : List Card} {i : Nat} {c : Card}
    (f : Card → Card) (h : cs[i]? = some c) :
    (modifyCard cs i f)[i]? = some (f c) := by
  have hlt : i < cs.length := (List.getElem?_eq_some.mp h).1
  simp [modifyCard, h, List.getElem?_set_self hlt]

theorem getElem?_modifyCard_ne {cs : List Card} {i j : Nat}
    (f : Card → Card) (hne : i ≠ j) :
    (modifyCard cs i f)[j]? = cs[j]? := by
  unfold modifyCard
  cases h : cs[i]? with
  | none => rfl
  | some c => simp [List.getElem?_set_ne hne]

theorem countP_modifyCard {cs : List Card} {i : Nat} {c : Card}
    (p : Card → Bool) (f : Card → Card) (h : cs[i]? = some c) :
    (modifyCard cs i f).countP p + (if p c then 1 else 0)
      = cs.countP p + (if p (f c) then 1 else 0) := by
  simp only [modifyCard, h]
  exact countP_set_balance p cs i (f c) c h

/-! ### Branch lemmas for `flipCard` -/

theorem flipCard_oob {s : GameState} {i : Nat} (h : s.cards[i]? = none) :
    flipCard s i = s := by
  simp [flipCard, h]

theorem flipCard_noListener {s : GameState} {i : Nat} {c : Card}
    (h : s.cards[i]? = some c) (hl : c.hasListener = false) :
    flipCard s i = s := by
  simp [flipCard, h, hl]

theorem flipCard_guard {s : GameState} {i : Nat} {c : Card}
    (h : s.cards[i]? = some c)
    (hg : s.lockBoard = true ∨ s.firstCard = some i) :
    flipCard s i = s := by
  cases hl : c.hasListener with
  | false => exact flipCard_noListener h hl
  | true => simp [flipCard, h, hl, hg]

theorem flipCard_first {s : GameState} {i : Nat} {c : Card}
    (h : s.cards[i]? = some c) (hl : c.hasListener = true)
    (hlock : s.lockBoard = false) (hfc : s.firstCard = none) :
    flipCard s i =
      { s with cards := modifyCard s.cards i revealCard,
               firstCard := some i, flipTimer := true } := by
  simp [flipCard, h, hl, hlock, hfc]

theorem flipCard_matchBranch {s : GameState} {i j : Nat} {c : Card}
    (h : s.cards[i]? = some c) (hl : c.hasListener = true)
    (hlock : s.lockBoard = false) (hfc : s.firstCard = some j)
    (hij : j ≠ i)
    (hm : pairKey (idAt s.cards j) = pairKey c.id) :
    flipCard s i =
      { s with
        cards := modifyCard (modifyCard (modifyCard s.cards i revealCard) j matchCard)
          i matchCard,
        firstCard := none, secondCard := none, lockBoard := false,
        flipTimer := false,
        matchedCount := s.matchedCount + 2,
        won := if s.matchedCount + 2 = s.cards.length then true else s.won } := by
  have hid : idAt (modifyCard s.cards i revealCard) j = idAt s.cards j := by
    simp [idAt, getElem?_modifyCard_ne revealCard (fun e => hij e.symm)]
  have hlen : (modifyCard (modifyCard (modifyCard s.cards i revealCard) j matchCard)
      i matchCard).length = s.cards.length := by
    simp [length_modifyCard]
  simp [flipCard, h, hl, hlock, hfc, hij, hid, hm, resetBoard, hlen]

theorem flipCard_mismatchBranch {s : GameState} {i j : Nat} {c : Card}
    (h : s.cards[i]? = some c) (hl : c.hasListener = true)
    (hlock : s.lockBoard = false) (hfc : s.firstCard = some j)
    (hij : j ≠ i)
    (hm : pairKey (idAt s.cards j) ≠ pairKey c.id) :
    flipCard s i =
      { s with cards := modifyCard s.cards i revealCard,
               secondCard := some i, lockBoard := true,
               flipTimer := false, mismatchPending := true } := by
  have hid : idAt (modifyCard s.cards i revealCard) j = idAt s.cards j := by
    simp [idAt, getElem?_modifyCard_ne revealCard (fun e => hij e.symm)]
  simp [flipCard, h, hl, hlock, hfc, hij, hid, hm]

theorem fireFlipTimer_off {s : GameState} (h : s.flipTimer = false) :
    fireFlipTimer s = s := by
  simp [fireFlipTimer, h]

theorem fireFlipTimer_on {s : GameState} {j : Nat}
    (ht : s.flipTimer = true) (hfc : s.firstCard = some j) :
    fireFlipTimer s =
      { s with cards := modifyCard s.cards j hideCard,
               firstCard := none, flipTimer := false } := by
  simp [fireFlipTimer, ht, hfc]

theorem fireMismatchTimer_off {s : GameState} (h : s.mismatchPending = false) :
    fireMismatchTimer s = s := by
  simp [fireMismatchTimer, h]

theorem fireMismatchTimer_on {s : GameState} {j i : Nat}
    (hp : s.mismatchPending = true) (hfc : s.firstCard = some j)
    (hsc : s.secondCard = some i) :
    fireMismatchTimer s =
      { s with cards := modifyCard (modifyCard s.cards j hideCard) i hideCard,
               firstCard := none, secondCard := none, lockBoard := false,
               mismatchPending := false } := by
  simp [fireMismatchTimer, hp, hfc, hsc, resetBoard]

/-! ### The round invariant

`Inv` collects the facts that hold of the state between any two events of a
round and are preserved by every click and timer event.  They formalise the
specification's invariants: the revealed cards are exactly the occupied
selection slots, the lock coincides with a pending mismatch resolution,
matched cards have no listener, `matchedCount` counts the matched cards, and
the winner message is shown exactly at full `matchedCount`. -/

/-- Revealed in the DOM sense: `flipped` and not `matched`. -/
def pRev (c : Card) : Bool := c.flippedCls && !c.matchedCls

/-- Carrying the `matched` class. -/
def pM (c : Card) : Bool := c.matchedCls

theorem state_revealed_eq (c : Card) :
    (c.state == CardState.Revealed) = pRev c := by
  unfold Card.state pRev
  cases hm : c.matchedCls <;> cases hf : c.flippedCls <;> cases hh : c.hiddenCls <;>
    simp [hm, hf, hh]

theorem revealedCount_eq (s : GameState) :
    revealedCount s = s.cards.countP pRev := by
  unfold revealedCount
  exact List.countP_congr (fun c _ => by rw [state_revealed_eq])

structure RoundInv (s : GameState) : Prop where
  ne : s.cards ≠ []
  rev_slots : ∀ (i : Nat) (c : Card), s.cards[i]? = some c → pRev c = true →
      s.firstCard = some i ∨ s.secondCard = some i
  second_iff : s.secondCard.isSome = s.mismatchPending
  lock_iff : s.lockBoard = s.mismatchPending
  first_rev : ∀ j : Nat, s.firstCard = some j →
      ∃ c : Card, s.cards[j]? = some c ∧ pRev c = true
  second_rev : ∀ i : Nat, s.secondCard = some i →
      ∃ c : Card, s.cards[i]? = some c ∧ pRev c = true
  mm_first : s.mismatchPending = true → s.firstCard.isSome
  ft_first : s.flipTimer = true → s.firstCard.isSome ∧ s.mismatchPending = false
  distinct : ∀ j i : Nat, s.firstCard = some j → s.secondCard = some i → j ≠ i
  matched_unlistened : ∀ (i : Nat) (c : Card), s.cards[i]? = some c → c.matchedCls = true →
      c.hasListener = false
  count_matched : s.matchedCount = s.cards.countP pM
  rev_count : s.cards.countP pRev
      = (if s.firstCard.isSome then 1 else 0)
        + (if s.secondCard.isSome then 1 else 0)
  won_iff : s.won = true ↔ s.matchedCount = s.cards.length

/-- Freshly built cards (every card `createBox` returns satisfies this). -/
def freshCards (cards : List Card) : Prop :=
  ∀ c ∈ cards, c.flippedCls = false ∧ c.matchedCls = false

instance : DecidablePred freshCards := fun cards =>
  inferInstanceAs (Decidable (∀ c ∈ cards, _ ∧ _))

theorem inv_startRound (cards : List Card) (h : cards ≠ [])
    (hfresh : freshCards cards) :
    RoundInv (startRound cards) := by
  have hcards : ∀ (i : Nat) (c : Card), (startRound cards).cards[i]? = some c →
      c.flippedCls = false ∧ c.matchedCls = false := by
    intro i c hc
    simp only [startRound, List.getElem?_map] at hc
    cases hm : cards[i]? with
    | none => rw [hm] at hc; simp at hc
    | some d =>
      rw [hm] at hc
      simp at hc
      subst hc
      have hd : d ∈ cards := List.getElem?_mem hm
      have := hfresh d hd
      simpa [setupCard] using this
  refine ⟨?_, ?_, rfl, rfl, ?_, ?_, ?_, ?_, ?_, ?_, ?_, ?_, ?_⟩
  · simp only [startRound]
    intro hcon
    exact h (List.map_eq_nil_iff.mp hcon)
  · intro i c hc hrev
    have := hcards i c hc
    simp [pRev, this.1] at hrev
  · intro j hj; simp [startRound] at hj
  · intro i hi; simp [startRound] at hi
  · intro hp; simp [startRound] at hp
  · intro ht; simp [startRound] at ht
  · intro j i hj _; simp [startRound] at hj
  · intro i c hc hm
    have := hcards i c hc
    rw [this.2] at hm
    exact absurd hm (by simp)
  · show (0 : Nat) = _
    rw [List.countP_eq_zero.mpr]
    intro c hcmem
    rcases List.mem_iff_getElem?.mp hcmem with ⟨i, hi⟩
    have := hcards i c hi
    simp [pM, this.2]
  · rw [List.countP_eq_zero.mpr]
    · simp [startRound]
    · intro c hcmem
      rcases List.mem_iff_getElem?.mp hcmem with ⟨i, hi⟩
      have := hcards i c hi
      simp [pRev, this.1]
  · constructor
    · intro hw; simp [startRound] at hw
    · intro hw
      exfalso
      have hlen : (startRound cards).cards.length = cards.length := by
        simp [startRound]
      simp only [startRound] at hw
      simp only [List.length_map] at hw
      have : cards.length ≠ 0 := by
        intro h0
        exact h (List.eq_nil_of_length_eq_zero h0)
      omega

theorem modifyCard_ne_nil {cs : List Card} {i : Nat} {f : Card → Card}
    (h : cs ≠ []) : modifyCard cs i f ≠ [] := by
  intro e
  apply h
  have hl := length_modifyCard cs i f
  rw [e] at hl
  exact List.eq_nil_of_length_eq_zero hl.symm

theorem pRev_hideCard (c : Card) : pRev (hideCard c) = false := by
  simp [pRev, hideCard]

theorem pRev_revealCard (c : Card) : pRev (revealCard c) = !c.matchedCls := by
  simp [pRev, revealCard]

theorem pRev_matchCard (c : Card) : pRev (matchCard c) = false := by
  simp [pRev, matchCard]

theorem pM_hideCard (c : Card) : pM (hideCard c) = pM c := rfl

theorem pM_revealCard (c : Card) : pM (revealCard c) = pM c := rfl

theorem pM_matchCard (c : Card) : pM (matchCard c) = true := rfl

theorem second_none_of_mm_false {s : GameState} (hs : RoundInv s)
    (hmm : s.mismatchPending = false) : s.secondCard = none := by
  have h2 := hs.second_iff
  rw [hmm] at h2
  cases hsc : s.secondCard with
  | none => rfl
  | some i => rw [hsc] at h2; simp at h2

theorem inv_fireFlipTimer {s : GameState} (hs : RoundInv s) :
    RoundInv (fireFlipTimer s) := by
  cases ht : s.flipTimer with
  | false => rw [fireFlipTimer_off ht]; exact hs
  | true =>
    obtain ⟨hfsome, hmm⟩ := hs.ft_first ht
    obtain ⟨j, hj⟩ := Option.isSome_iff_exists.mp hfsome
    rw [fireFlipTimer_on ht hj]
    obtain ⟨cj, hcj, hcjrev⟩ := hs.first_rev j hj
    have hsecond : s.secondCard = none := second_none_of_mm_false hs hmm
    have hcnt := countP_modifyCard pRev hideCard hcj
    rw [hcjrev, pRev_hideCard] at hcnt
    simp only [if_pos rfl, if_neg Bool.false_ne_true] at hcnt
    have hs_rc := hs.rev_count
    rw [hj, hsecond] at hs_rc
    simp only [Option.isSome_some, Option.isSome_none, if_pos rfl,
      if_neg Bool.false_ne_true] at hs_rc
    have hcntM := countP_modifyCard pM hideCard hcj
    rw [pM_hideCard] at hcntM
    have hMeq : List.countP pM (modifyCard s.cards j hideCard)
        = List.countP pM s.cards := Nat.add_right_cancel hcntM
    refine ⟨?_, ?_, ?_, ?_, ?_, ?_, ?_, ?_, ?_, ?_, ?_, ?_, ?_⟩
    · exact modifyCard_ne_nil hs.ne
    · dsimp only
      intro i c hc hrev
      exfalso
      by_cases hij : i = j
      · subst hij
        rw [getElem?_modifyCard_self hideCard hcj] at hc
        injection hc with hc
        rw [← hc, pRev_hideCard] at hrev
        exact absurd hrev (by simp)
      · rw [getElem?_modifyCard_ne hideCard (fun e => hij e.symm)] at hc
        rcases hs.rev_slots i c hc hrev with h1 | h2
        · rw [hj] at h1; injection h1 with h1; exact hij h1.symm
        · rw [hsecond] at h2; exact Option.noConfusion h2
    · exact hs.second_iff
    · exact hs.lock_iff
    · dsimp only
      intro k hk
      exact Option.noConfusion hk
    · dsimp only
      intro k hk
      rw [hsecond] at hk
      exact Option.noConfusion hk
    · dsimp only
      intro hp
      rw [hmm] at hp
      exact absurd hp (by simp)
    · dsimp only
      intro hft
      exact absurd hft (by simp)
    · dsimp only
      intro a b ha _
      exact Option.noConfusion ha
    · dsimp only
      intro i c hc hmc
      by_cases hij : i = j
      · subst hij
        rw [getElem?_modifyCard_self hideCard hcj] at hc
        injection hc with hc
        have hcm : (hideCard cj).matchedCls = cj.matchedCls := rfl
        rw [← hc, hcm] at hmc
        have hcjm : cj.matchedCls = false := by
          unfold pRev at hcjrev
          cases hm2 : cj.matchedCls
          · rfl
          · rw [hm2] at hcjrev; simp at hcjrev
        rw [hcjm] at hmc
        exact absurd hmc (by simp)
      · rw [getElem?_modifyCard_ne hideCard (fun e => hij e.symm)] at hc
        exact hs.matched_unlistened i c hc hmc
    · dsimp only
      rw [hMeq]
      exact hs.count_matched
    · dsimp only
      rw [hsecond]
      simp only [Option.isSome_none, if_neg Bool.false_ne_true]
      omega
    · dsimp only
      rw [length_modifyCard]
      exact hs.won_iff

theorem inv_fireMismatchTimer {s : GameState} (hs : RoundInv s) :
    RoundInv (fireMismatchTimer s) := by
  cases hp : s.mismatchPending with
  | false => rw [fireMismatchTimer_off hp]; exact hs
  | true =>
    obtain ⟨j, hj⟩ := Option.isSome_iff_exists.mp (hs.mm_first hp)
    have h2some : s.secondCard.isSome = true := by rw [hs.second_iff, hp]
    obtain ⟨i, hi⟩ := Option.isSome_iff_exists.mp h2some
    have hij : j ≠ i := hs.distinct j i hj hi
    rw [fireMismatchTimer_on hp hj hi]
    obtain ⟨cj, hcj, hcjrev⟩ := hs.first_rev j hj
    obtain ⟨ci, hci, hcirev⟩ := hs.second_rev i hi
    have hci1 : (modifyCard s.cards j hideCard)[i]? = some ci := by
      rw [getElem?_modifyCard_ne hideCard hij]
      exact hci
    have hcj1 : (modifyCard s.cards j hideCard)[j]? = some (hideCard cj) :=
      getElem?_modifyCard_self hideCard hcj
    have hcnt1 := countP_modifyCard pRev hideCard hcj
    rw [hcjrev, pRev_hideCard] at hcnt1
    simp only [if_pos rfl, if_neg Bool.false_ne_true] at hcnt1
    have hcnt2 := countP_modifyCard pRev hideCard hci1
    rw [hcirev, pRev_hideCard] at hcnt2
    simp only [if_pos rfl, if_neg Bool.false_ne_true] at hcnt2
    have hcntM1 := countP_modifyCard pM hideCard hcj
    rw [pM_hideCard] at hcntM1
    have hMeq1 : List.countP pM (modifyCard s.cards j hideCard)
        = List.countP pM s.cards := Nat.add_right_cancel hcntM1
    have hcntM2 := countP_modifyCard pM hideCard hci1
    rw [pM_hideCard] at hcntM2
    have hMeq2 : List.countP pM (modifyCard (modifyCard s.cards j hideCard) i hideCard)
        = List.countP pM (modifyCard s.cards j hideCard) :=
      Nat.add_right_cancel hcntM2
    have hs_rc := hs.rev_count
    rw [hj, hi] at hs_rc
    simp only [Option.isSome_some, if_pos rfl] at hs_rc
    refine ⟨?_, ?_, ?_, ?_, ?_, ?_, ?_, ?_, ?_, ?_, ?_, ?_, ?_⟩
    · exact modifyCard_ne_nil (modifyCard_ne_nil hs.ne)
    · dsimp only
      intro k c hc hrev
      exfalso
      by_cases hki : k = i
      · subst hki
        rw [getElem?_modifyCard_self hideCard hci1] at hc
        injection hc with hc
        rw [← hc, pRev_hideCard] at hrev
        exact absurd hrev (by simp)
      · rw [getElem?_modifyCard_ne hideCard (fun e => hki e.symm)] at hc
        by_cases hkj : k = j
        · subst hkj
          rw [hcj1] at hc
          injection hc with hc
          rw [← hc, pRev_hideCard] at hrev
          exact absurd hrev (by simp)
        · rw [getElem?_modifyCard_ne hideCard (fun e => hkj e.symm)] at hc
          rcases hs.rev_slots k c hc hrev with h1 | h2
          · rw [hj] at h1; injection h1 with h1; exact hkj h1.symm
          · rw [hi] at h2; injection h2 with h2; exact hki h2.symm
    · rfl
    · rfl
    · dsimp only
      intro k hk
      exact Option.noConfusion hk
    · dsimp only
      intro k hk
      exact Option.noConfusion hk
    · dsimp only
      intro hp'
      exact absurd hp' (by simp)
    · dsimp only
      intro hft
      have := hs.ft_first hft
      rw [hp] at this
      exact absurd this.2 (by simp)
    · dsimp only
      intro a b ha _
      exact Option.noConfusion ha
    · dsimp only
      intro k c hc hmc
      by_cases hki : k = i
      · subst hki
        rw [getElem?_modifyCard_self hideCard hci1] at hc
        injection hc with hc
        have hcm : (hideCard ci).matchedCls = ci.matchedCls := rfl
        rw [← hc, hcm] at hmc
        have hcim : ci.matchedCls = false := by
          unfold pRev at hcirev
          cases hm2 : ci.matchedCls
          · rfl
          · rw [hm2] at hcirev; simp at hcirev
        rw [hcim] at hmc
        exact absurd hmc (by simp)
      · rw [getElem?_modifyCard_ne hideCard (fun e => hki e.symm)] at hc
        by_cases hkj : k = j
        · subst hkj
          rw [hcj1] at hc
          injection hc with hc
          have hcm : (hideCard cj).matchedCls = cj.matchedCls := rfl
          rw [← hc, hcm] at hmc
          have hcjm : cj.matchedCls = false := by
            unfold pRev at hcjrev
            cases hm2 : cj.matchedCls
            · rfl
            · rw [hm2] at hcjrev; simp at hcjrev
          rw [hcjm] at hmc
          exact absurd hmc (by simp)
        · rw [getElem?_modifyCard_ne hideCard (fun e => hkj e.symm)] at hc
          exact hs.matched_unlistened k c hc hmc
    · dsimp only
      rw [hMeq2, hMeq1]
      exact hs.count_matched
    · dsimp only
      simp only [Option.isSome_none, if_neg Bool.false_ne_true]
      omega
    · dsimp only
      rw [length_modifyCard, length_modifyCard]
      exact hs.won_iff

theorem inv_flipCard {s : GameState} (i : Nat) (hs : RoundInv s) :
    RoundInv (flipCard s i) := by
  cases h : s.cards[i]? with
  | none => rw [flipCard_oob h]; exact hs
  | some c =>
    cases hl : c.hasListener with
    | false => rw [flipCard_noListener h hl]; exact hs
    | true =>
      by_cases hg : s.lockBoard = true ∨ s.firstCard = some i
      · rw [flipCard_guard h hg]; exact hs
      · push_neg at hg
        obtain ⟨hg1, hg2⟩ := hg
        have hlock : s.lockBoard = false := by
          cases hb : s.lockBoard
          · rfl
          · exact absurd hb hg1
        have hmm : s.mismatchPending = false := by
          rw [← hs.lock_iff]; exact hlock
        have hsecond : s.secondCard = none := second_none_of_mm_false hs hmm
        have hcm : c.matchedCls = false := by
          cases hmc : c.matchedCls
          · rfl
          · have hx := hs.matched_unlistened i c h hmc
            rw [hl] at hx
            simp at hx
        have hcmem : c ∈ s.cards := List.getElem?_mem h
        cases hfc : s.firstCard with
        | none =>
          have hcrev : pRev c = false := by
            cases hpc : pRev c
            · rfl
            · rcases hs.rev_slots i c h hpc with h1 | h2
              · rw [hfc] at h1; exact Option.noConfusion h1
              · rw [hsecond] at h2; exact Option.noConfusion h2
          rw [flipCard_first h hl hlock hfc]
          have hcnt := countP_modifyCard pRev revealCard h
          rw [hcrev, pRev_revealCard, hcm] at hcnt
          simp only [Bool.not_false, if_pos rfl, if_neg Bool.false_ne_true] at hcnt
          have hs_rc := hs.rev_count
          rw [hfc, hsecond] at hs_rc
          simp only [Option.isSome_none, if_neg Bool.false_ne_true] at hs_rc
          have hcntM := countP_modifyCard pM revealCard h
          rw [pM_revealCard] at hcntM
          have hMeq : List.countP pM (modifyCard s.cards i revealCard)
              = List.countP pM s.cards := Nat.add_right_cancel hcntM
          refine ⟨?_, ?_, ?_, ?_, ?_, ?_, ?_, ?_, ?_, ?_, ?_, ?_, ?_⟩
          · exact modifyCard_ne_nil hs.ne
          · dsimp only
            intro k c' hc' hrev'
            by_cases hki : k = i
            · subst hki
              exact Or.inl rfl
            · exfalso
              rw [getElem?_modifyCard_ne revealCard (fun e => hki e.symm)] at hc'
              rcases hs.rev_slots k c' hc' hrev' with h1 | h2
              · rw [hfc] at h1; exact Option.noConfusion h1
              · rw [hsecond] at h2; exact Option.noConfusion h2
          · exact hs.second_iff
          · exact hs.lock_iff
          · dsimp only
            intro k hk
            injection hk with hk
            subst hk
            refine ⟨revealCard c, getElem?_modifyCard_self revealCard h, ?_⟩
            rw [pRev_revealCard, hcm]
            rfl
          · dsimp only
            intro k hk
            rw [hsecond] at hk
            exact Option.noConfusion hk
          · dsimp only
            intro hp
            rw [hmm] at hp
            exact absurd hp (by simp)
          · dsimp only
            intro _
            exact ⟨rfl, hmm⟩
          · dsimp only
            intro a b ha hb
            rw [hsecond] at hb
            exact Option.noConfusion hb
          · dsimp only
            intro k c' hc' hmc'
            by_cases hki : k = i
            · subst hki
              rw [getElem?_modifyCard_self revealCard h] at hc'
              injection hc' with hc'
              have hcm2 : (revealCard c).matchedCls = c.matchedCls := rfl
              rw [← hc', hcm2, hcm] at hmc'
              exact absurd hmc' (by simp)
            · rw [getElem?_modifyCard_ne revealCard (fun e => hki e.symm)] at hc'
              exact hs.matched_unlistened k c' hc' hmc'
          · dsimp only
            rw [hMeq]
            exact hs.count_matched
          · dsimp only
            rw [hsecond]
            simp only [Option.isSome_some, Option.isSome_none, if_pos rfl,
              if_neg Bool.false_ne_true]
            omega
          · dsimp only
            rw [length_modifyCard]
            exact hs.won_iff
        | some j =>
          have hij : j ≠ i := by
            intro e
            subst e
            exact hg2 hfc
          obtain ⟨cj, hcj, hcjrev⟩ := hs.first_rev j hfc
          have hcjm : cj.matchedCls = false := by
            unfold pRev at hcjrev
            cases hm2 : cj.matchedCls
            · rfl
            · rw [hm2] at hcjrev; simp at hcjrev
          have hcrev : pRev c = false := by
            cases hpc : pRev c
            · rfl
            · rcases hs.rev_slots i c h hpc with h1 | h2
              · rw [hfc] at h1
                injection h1 with h1
                exact absurd h1 hij
              · rw [hsecond] at h2; exact Option.noConfusion h2
          have hcnt := countP_modifyCard pRev revealCard h
          rw [hcrev, pRev_revealCard, hcm] at hcnt
          simp only [Bool.not_false, if_pos rfl, if_neg Bool.false_ne_true] at hcnt
          have hs_rc := hs.rev_count
          rw [hfc, hsecond] at hs_rc
          simp only [Option.isSome_some, Option.isSome_none, if_pos rfl,
            if_neg Bool.false_ne_true] at hs_rc
          have hcntM := countP_modifyCard pM revealCard h
          rw [pM_revealCard] at hcntM
          have hMeq : List.countP pM (modifyCard s.cards i revealCard)
              = List.countP pM s.cards := Nat.add_right_cancel hcntM
          have hwonne : s.matchedCount ≠ s.cards.length := by
            intro he
            rw [hs.count_matched] at he
            have hall := List.countP_eq_length.mp he c hcmem
            unfold pM at hall
            rw [hcm] at hall
            exact absurd hall (by simp)
          by_cases hmatch : pairKey (idAt s.cards j) = pairKey c.id
          · rw [flipCard_matchBranch h hl hlock hfc hij hmatch]
            have hc1i : (modifyCard s.cards i revealCard)[i]? = some (revealCard c) :=
              getElem?_modifyCard_self revealCard h
            have hc1j : (modifyCard s.cards i revealCard)[j]? = some cj := by
              rw [getElem?_modifyCard_ne revealCard (Ne.symm hij)]; exact hcj
            have hc2j : (modifyCard (modifyCard s.cards i revealCard) j matchCard)[j]?
                = some (matchCard cj) := getElem?_modifyCard_self matchCard hc1j
            have hc2i : (modifyCard (modifyCard s.cards i revealCard) j matchCard)[i]?
                = some (revealCard c) := by
              rw [getElem?_modifyCard_ne matchCard hij]; exact hc1i
            have hc3i : (modifyCard (modifyCard (modifyCard s.cards i revealCard)
                j matchCard) i matchCard)[i]? = some (matchCard (revealCard c)) :=
              getElem?_modifyCard_self matchCard hc2i
            have hcnt2 := countP_modifyCard pRev matchCard hc1j
            rw [hcjrev, pRev_matchCard] at hcnt2
            simp only [if_pos rfl, if_neg Bool.false_ne_true] at hcnt2
            have hcnt3 := countP_modifyCard pRev matchCard hc2i
            rw [pRev_revealCard, hcm, pRev_matchCard] at hcnt3
            simp only [Bool.not_false, if_pos rfl, if_neg Bool.false_ne_true] at hcnt3
            have hcntM2 := countP_modifyCard pM matchCard hc1j
            rw [pM_matchCard] at hcntM2
            have hpmcj : pM cj = false := by unfold pM; exact hcjm
            rw [hpmcj] at hcntM2
            simp only [if_pos rfl, if_neg Bool.false_ne_true] at hcntM2
            have hcntM3 := countP_modifyCard pM matchCard hc2i
            rw [pM_matchCard] at hcntM3
            have hpmc : pM (revealCard c) = false := by
              unfold pM
              have : (revealCard c).matchedCls = c.matchedCls := rfl
              rw [this, hcm]
            rw [hpmc] at hcntM3
            simp only [if_pos rfl, if_neg Bool.false_ne_true] at hcntM3
            refine ⟨?_, ?_, ?_, ?_, ?_, ?_, ?_, ?_, ?_, ?_, ?_, ?_, ?_⟩
            · exact modifyCard_ne_nil (modifyCard_ne_nil (modifyCard_ne_nil hs.ne))
            · dsimp only
              intro k c' hc' hrev'
              exfalso
              by_cases hki : k = i
              · subst hki
                rw [hc3i] at hc'
                injection hc' with hc'
                rw [← hc', pRev_matchCard] at hrev'
                exact absurd hrev' (by simp)
              · rw [getElem?_modifyCard_ne matchCard (fun e => hki e.symm)] at hc'
                by_cases hkj : k = j
                · subst hkj
                  rw [hc2j] at hc'
                  injection hc' with hc'
                  rw [← hc', pRev_matchCard] at hrev'
                  exact absurd hrev' (by simp)
                · rw [getElem?_modifyCard_ne matchCard (fun e => hkj e.symm)] at hc'
                  rw [getElem?_modifyCard_ne revealCard (fun e => hki e.symm)] at hc'
                  rcases hs.rev_slots k c' hc' hrev' with h1 | h2
                  · rw [hfc] at h1; injection h1 with h1; exact hkj h1.symm
                  · rw [hsecond] at h2; exact Option.noConfusion h2
            · dsimp only
              exact hmm.symm
            · dsimp only
              exact hmm.symm
            · dsimp only
              intro k hk
              exact Option.noConfusion hk
            · dsimp only
              intro k hk
              exact Option.noConfusion hk
            · dsimp only
              intro hp
              rw [hmm] at hp
              exact absurd hp (by simp)
            · dsimp only
              intro hft
              exact absurd hft (by simp)
            · dsimp only
              intro a b ha _
              exact Option.noConfusion ha
            · dsimp only
              intro k c' hc' hmc'
              by_cases hki : k = i
              · subst hki
                rw [hc3i] at hc'
                injection hc' with hc'
                rw [← hc']
                rfl
              · rw [getElem?_modifyCard_ne matchCard (fun e => hki e.symm)] at hc'
                by_cases hkj : k = j
                · subst hkj
                  rw [hc2j] at hc'
                  injection hc' with hc'
                  rw [← hc']
                  rfl
                · rw [getElem?_modifyCard_ne matchCard (fun e => hkj e.symm)] at hc'
                  rw [getElem?_modifyCard_ne revealCard (fun e => hki e.symm)] at hc'
                  exact hs.matched_unlistened k c' hc' hmc'
            · dsimp only
              have e2 : List.countP pM (modifyCard (modifyCard s.cards i revealCard)
                  j matchCard) = List.countP pM (modifyCard s.cards i revealCard) + 1 := by
                exact hcntM2
              have e3 : List.countP pM (modifyCard (modifyCard (modifyCard s.cards
                  i revealCard) j matchCard) i matchCard)
                  = List.countP pM (modifyCard (modifyCard s.cards i revealCard)
                    j matchCard) + 1 := by
                simpa using hcntM3
              rw [e3, e2, hMeq, ← hs.count_matched]
            · dsimp only
              simp only [Option.isSome_none, if_neg Bool.false_ne_true]
              omega
            · dsimp only
              rw [length_modifyCard, length_modifyCard, length_modifyCard]
              by_cases hW : s.matchedCount + 2 = s.cards.length
              · rw [if_pos hW]
                exact ⟨fun _ => hW, fun _ => rfl⟩
              · rw [if_neg hW]
                constructor
                · intro hw
                  exact absurd (hs.won_iff.mp hw) hwonne
                · intro h2
                  exact absurd h2 hW
          · rw [flipCard_mismatchBranch h hl hlock hfc hij hmatch]
            refine ⟨?_, ?_, ?_, ?_, ?_, ?_, ?_, ?_, ?_, ?_, ?_, ?_, ?_⟩
            · exact modifyCard_ne_nil hs.ne
            · dsimp only
              intro k c' hc' hrev'
              by_cases hki : k = i
              · subst hki
                exact Or.inr rfl
              · rw [getElem?_modifyCard_ne revealCard (fun e => hki e.symm)] at hc'
                rcases hs.rev_slots k c' hc' hrev' with h1 | h2
                · exact Or.inl h1
                · rw [hsecond] at h2; exact Option.noConfusion h2
            · rfl
            · rfl
            · dsimp only
              intro k hk
              rw [hfc] at hk
              injection hk with hk
              subst hk
              refine ⟨cj, ?_, hcjrev⟩
              rw [getElem?_modifyCard_ne revealCard (Ne.symm hij)]
              exact hcj
            · dsimp only
              intro k hk
              injection hk with hk
              subst hk
              refine ⟨revealCard c, getElem?_modifyCard_self revealCard h, ?_⟩
              rw [pRev_revealCard, hcm]
              rfl
            · dsimp only
              intro _
              rw [hfc]
              rfl
            · dsimp only
              intro hft
              exact absurd hft (by simp)
            · dsimp only
              intro a b ha hb
              rw [hfc] at ha
              injection ha with ha
              injection hb with hb
              subst ha
              subst hb
              exact hij
            · dsimp only
              intro k c' hc' hmc'
              by_cases hki : k = i
              · subst hki
                rw [getElem?_modifyCard_self revealCard h] at hc'
                injection hc' with hc'
                have hcm2 : (revealCard c).matchedCls = c.matchedCls := rfl
                rw [← hc', hcm2, hcm] at hmc'
                exact absurd hmc' (by simp)
              · rw [getElem?_modifyCard_ne revealCard (fun e => hki e.symm)] at hc'
                exact hs.matched_unlistened k c' hc' hmc'
            · dsimp only
              rw [hMeq]
              exact hs.count_matched
            · dsimp only
              rw [hfc]
              simp only [Option.isSome_some, if_pos rfl]
              omega
            · dsimp only
              rw [length_modifyCard]
              exact hs.won_iff

theorem inv_step {s : GameState} (e : GEvent) (hs : RoundInv s) :
    RoundInv (step s e) := by
  cases e with
  | click i => exact inv_flipCard i hs
  | autoHide => exact inv_fireFlipTimer hs
  | mismatchTimeout => exact inv_fireMismatchTimer hs

theorem inv_run {s : GameState} (es : List GEvent) (hs : RoundInv s) :
    RoundInv (run s es) := by
  induction es generalizing s with
  | nil => exact hs
  | cons e es ih => exact ih (inv_step e hs)

/-! ### Shape of a single step

Every event maps the state to one of a few explicit record updates; the
monotonicity facts of claim C4 (matched cards stay matched, `matchedCount`
only grows by steps of two, the winner message never disappears) follow by
case analysis on this shape, with no reachability hypothesis. -/

theorem fireFlipTimer_stale {s : GameState} (ht : s.flipTimer = true)
    (hfc : s.firstCard = none) :
    fireFlipTimer s = { s with flipTimer := false } := by
  simp [fireFlipTimer, ht, hfc]

theorem flipCard_shape (s : GameState) (i : Nat) :
    flipCard s i = s ∨
    flipCard s i =
      { s with cards := modifyCard s.cards i revealCard,
               firstCard := some i, flipTimer := true } ∨
    (∃ j, flipCard s i =
      { s with
        cards := modifyCard (modifyCard (modifyCard s.cards i revealCard)
          j matchCard) i matchCard,
        firstCard := none, secondCard := none, lockBoard := false,
        flipTimer := false,
        matchedCount := s.matchedCount + 2,
        won := if s.matchedCount + 2 = s.cards.length then true else s.won }) ∨
    flipCard s i =
      { s with cards := modifyCard s.cards i revealCard,
               secondCard := some i, lockBoard := true, flipTimer := false,
               mismatchPending := true } := by
  cases h : s.cards[i]? with
  | none => exact Or.inl (flipCard_oob h)
  | some c =>
    cases hl : c.hasListener with
    | false => exact Or.inl (flipCard_noListener h hl)
    | true =>
      by_cases hg : s.lockBoard = true ∨ s.firstCard = some i
      · exact Or.inl (flipCard_guard h hg)
      · push_neg at hg
        obtain ⟨hg1, hg2⟩ := hg
        have hlock : s.lockBoard = false := by
          cases hb : s.lockBoard
          · rfl
          · exact absurd hb hg1
        cases hfc : s.firstCard with
        | none => exact Or.inr (Or.inl (flipCard_first h hl hlock hfc))
        | some j =>
          have hij : j ≠ i := by
            intro e
            subst e
            exact hg2 hfc
          by_cases hmatch : pairKey (idAt s.cards j) = pairKey c.id
          · exact Or.inr (Or.inr (Or.inl
              ⟨j, flipCard_matchBranch h hl hlock hfc hij hmatch⟩))
          · refine Or.inr (Or.inr (Or.inr ?_))
            rw [flipCard_mismatchBranch h hl hlock hfc hij hmatch, hfc]

theorem fireFlipTimer_shape (s : GameState) :
    fireFlipTimer s = s ∨
    fireFlipTimer s = { s with flipTimer := false } ∨
    (∃ j, fireFlipTimer s =
      { s with cards := modifyCard s.cards j hideCard,
               firstCard := none, flipTimer := false }) := by
  cases ht : s.flipTimer with
  | false => exact Or.inl (fireFlipTimer_off ht)
  | true =>
    cases hfc : s.firstCard with
    | none =>
      refine Or.inr (Or.inl ?_)
      rw [fireFlipTimer_stale ht hfc, hfc]
    | some j => exact Or.inr (Or.inr ⟨j, fireFlipTimer_on ht hfc⟩)

theorem fireMismatchTimer_stale {s : GameState} (hp : s.mismatchPending = true)
    (h : s.firstCard = none ∨ s.secondCard = none) :
    fireMismatchTimer s = { s with mismatchPending := false } := by
  rcases h with h1 | h2
  · cases hsc : s.secondCard <;> simp [fireMismatchTimer, hp, h1, hsc]
  · cases hfc : s.firstCard <;> simp [fireMismatchTimer, hp, h2, hfc]

theorem fireMismatchTimer_shape (s : GameState) :
    fireMismatchTimer s = s ∨
    fireMismatchTimer s = { s with mismatchPending := false } ∨
    (∃ j i, fireMismatchTimer s =
      { s with
        cards := modifyCard (modifyCard s.cards j hideCard) i hideCard,
        firstCard := none, secondCard := none, lockBoard := false,
        mismatchPending := false }) := by
  cases hp : s.mismatchPending with
  | false => exact Or.inl (fireMismatchTimer_off hp)
  | true =>
    cases hfc : s.firstCard with
    | none =>
      refine Or.inr (Or.inl ?_)
      rw [fireMismatchTimer_stale hp (Or.inl hfc), hfc]
    | some j =>
      cases hsc : s.secondCard with
      | none =>
        refine Or.inr (Or.inl ?_)
        rw [fireMismatchTimer_stale hp (Or.inr hsc), hfc, hsc]
      | some i => exact Or.inr (Or.inr ⟨j, i, fireMismatchTimer_on hp hfc hsc⟩)

/-- A card function that never clears the `matched` class, applied through
`modifyCard`, never un-matches a card. -/
theorem matched_after_modify {cs : List Card} {k : Nat} {c : Card} (i : Nat)
    {f : Card → Card} (hf : ∀ d, d.matchedCls = true → (f d).matchedCls = true)
    (h : cs[k]? = some c) (hm : c.matchedCls = true) :
    ∃ c', (modifyCard cs i f)[k]? = some c' ∧ c'.matchedCls = true := by
  by_cases hik : i = k
  · subst hik
    exact ⟨f c, getElem?_modifyCard_self f h, hf c hm⟩
  · exact ⟨c, by rw [getElem?_modifyCard_ne f hik]; exact h, hm⟩

theorem revealCard_keeps_matched (d : Card) (h : d.matchedCls = true) :
    (revealCard d).matchedCls = true := h

theorem hideCard_keeps_matched (d : Card) (h : d.matchedCls = true) :
    (hideCard d).matchedCls = true := h

theorem matchCard_keeps_matched (d : Card) (_ : d.matchedCls = true) :
    (matchCard d).matchedCls = true := rfl

/-- Across any single event, a matched card stays present and matched. -/
theorem matched_persists_step (s : GameState) (e : GEvent) (k : Nat) (c : Card)
    (h : s.cards[k]? = some c) (hm : c.matchedCls = true) :
    ∃ c', (step s e).cards[k]? = some c' ∧ c'.matchedCls = true := by
  cases e with
  | click i =>
    show ∃ c', (flipCard s i).cards[k]? = some c' ∧ c'.matchedCls = true
    rcases flipCard_shape s i with hsh | hsh | ⟨j, hsh⟩ | hsh <;> rw [hsh]
    · exact ⟨c, h, hm⟩
    · exact matched_after_modify i revealCard_keeps_matched h hm
    · obtain ⟨c1, h1, hm1⟩ := matched_after_modify i revealCard_keeps_matched h hm
      obtain ⟨c2, h2, hm2⟩ := matched_after_modify j matchCard_keeps_matched h1 hm1
      exact matched_after_modify i matchCard_keeps_matched h2 hm2
    · exact matched_after_modify i revealCard_keeps_matched h hm
  | autoHide =>
    show ∃ c', (fireFlipTimer s).cards[k]? = some c' ∧ c'.matchedCls = true
    rcases fireFlipTimer_shape s with hsh | hsh | ⟨j, hsh⟩ <;> rw [hsh]
    · exact ⟨c, h, hm⟩
    · exact ⟨c, h, hm⟩
    · exact matched_after_modify j hideCard_keeps_matched h hm
  | mismatchTimeout =>
    show ∃ c', (fireMismatchTimer s).cards[k]? = some c' ∧ c'.matchedCls = true
    rcases fireMismatchTimer_shape s with hsh | hsh | ⟨j, i, hsh⟩ <;> rw [hsh]
    · exact ⟨c, h, hm⟩
    · exact ⟨c, h, hm⟩
    · obtain ⟨c1, h1, hm1⟩ := matched_after_modify j hideCard_keeps_matched h hm
      exact matched_after_modify i hideCard_keeps_matched h1 hm1

/-- Across any single event, `matchedCount` stays or grows by exactly 2. -/
theorem matchedCount_step (s : GameState) (e : GEvent) :
    (step s e).matchedCount = s.matchedCount ∨
    (step s e).matchedCount = s.matchedCount + 2 := by
  cases e with
  | click i =>
    show (flipCard s i).matchedCount = _ ∨ (flipCard s i).matchedCount = _
    rcases flipCard_shape s i with hsh | hsh | ⟨j, hsh⟩ | hsh <;> rw [hsh]
    · exact Or.inl rfl
    · exact Or.inl rfl
    · exact Or.inr rfl
    · exact Or.inl rfl
  | autoHide =>
    show (fireFlipTimer s).matchedCount = _ ∨ (fireFlipTimer s).matchedCount = _
    rcases fireFlipTimer_shape s with hsh | hsh | ⟨j, hsh⟩ <;> rw [hsh]
    · exact Or.inl rfl
    · exact Or.inl rfl
    · exact Or.inl rfl
  | mismatchTimeout =>
    show (fireMismatchTimer s).matchedCount = _ ∨ (fireMismatchTimer s).matchedCount = _
    rcases fireMismatchTimer_shape s with hsh | hsh | ⟨j, i, hsh⟩ <;> rw [hsh]
    · exact Or.inl rfl
    · exact Or.inl rfl
    · exact Or.inl rfl

/-- Across any single event, a shown winner message stays shown. -/
theorem won_step_mono (s : GameState) (e : GEvent) (hw : s.won = true) :
    (step s e).won = true := by
  cases e with
  | click i =>
    show (flipCard s i).won = true
    rcases flipCard_shape s i with hsh | hsh | ⟨j, hsh⟩ | hsh <;> rw [hsh]
    · exact hw
    · exact hw
    · dsimp only
      by_cases hW : s.matchedCount + 2 = s.cards.length
      · rw [if_pos hW]
      · rw [if_neg hW]; exact hw
    · exact hw
  | autoHide =>
    show (fireFlipTimer s).won = true
    rcases fireFlipTimer_shape s with hsh | hsh | ⟨j, hsh⟩ <;> (rw [hsh]; exact hw)
  | mismatchTimeout =>
    show (fireMismatchTimer s).won = true
    rcases fireMismatchTimer_shape s with hsh | hsh | ⟨j, i, hsh⟩ <;>
      (rw [hsh]; exact hw)

/-- Length of the card list never changes across events. -/
theorem length_step (s : GameState) (e : GEvent) :
    (step s e).cards.length = s.cards.length := by
  cases e with
  | click i =>
    show (flipCard s i).cards.length = _
    rcases flipCard_shape s i with hsh | hsh | ⟨j, hsh⟩ | hsh <;> rw [hsh] <;>
      simp [length_modifyCard]
  | autoHide =>
    show (fireFlipTimer s).cards.length = _
    rcases fireFlipTimer_shape s with hsh | hsh | ⟨j, hsh⟩ <;>
      (rw [hsh]; try simp [length_modifyCard])
  | mismatchTimeout =>
    show (fireMismatchTimer s).cards.length = _
    rcases fireMismatchTimer_shape s with hsh | hsh | ⟨j, i, hsh⟩ <;>
      (rw [hsh]; try simp [length_modifyCard])

theorem won_run_mono (s : GameState) (es : List GEvent) (hw : s.won = true) :
    (run s es).won = true := by
  induction es generalizing s with
  | nil => exact hw
  | cons e es ih => exact ih (step s e) (won_step_mono s e hw)

theorem run_append (s : GameState) (a b : List GEvent) :
    run s (a ++ b) = run (run s a) b :=
  List.foldl_append step s a b

theorem length_run (s : GameState) (es : List GEvent) :
    (run s es).cards.length = s.cards.length := by
  induction es generalizing s with
  | nil => rfl
  | cons e es ih => rw [show run s (e :: es) = run (step s e) es from rfl,
      ih (step s e), length_step]

theorem length_startRound (cards : List Card) :
    (startRound cards).cards.length = cards.length := by
  simp [startRound]

/-- The winner message first appears while processing event `m` (events are
numbered from 0; `run` over `take m` is the state just before event `m`). -/
def wonFlipAt (s0 : GameState) (es : List GEvent) (m : Nat) : Prop :=
  (run s0 (es.take m)).won = false ∧ (run s0 (es.take (m + 1))).won = true

theorem won_flip_not_lt {s0 : GameState} {es : List GEvent} {m n : Nat}
    (hm : wonFlipAt s0 es m) (hn : wonFlipAt s0 es n) : ¬ m < n := by
  intro hlt
  have heq : (es.take n).take (m + 1) = es.take (m + 1) := by
    rw [List.take_take]
    congr 1
    omega
  have hsplit : run s0 (es.take n)
      = run (run s0 (es.take (m + 1))) ((es.take n).drop (m + 1)) := by
    conv_lhs => rw [← List.take_append_drop (m + 1) (es.take n)]
    rw [run_append, heq]
  have hwon := won_run_mono (run s0 (es.take (m + 1)))
    ((es.take n).drop (m + 1)) hm.2
  rw [← hsplit] at hwon
  rw [hn.1] at hwon
  exact absurd hwon (by simp)

theorem state_matched_iff (c : Card) :
    c.state = CardState.Matched ↔ c.matchedCls = true := by
  unfold Card.state
  cases hm : c.matchedCls <;> cases hf : c.flippedCls <;> cases hh : c.hiddenCls <;>
    simp [hm, hf, hh]

/-- Claim C1: at every instant of a round (any prefix of any event
sequence), the number of Revealed cards is 0, 1 or 2, and the board is
locked exactly while a second selection is awaiting resolution (the
`secondCard` slot is occupied; a match resolves within the same click
event, so between events the lock coincides with a pending mismatch
resolution). -/
theorem spec_c1 (cards : List Card) (h : cards ≠ []) (hf : freshCards cards)
    (es : List GEvent) :
    revealedCount (run (startRound cards) es) ≤ 2 ∧
    ((run (startRound cards) es).lockBoard = true ↔
      (run (startRound cards) es).secondCard.isSome = true) := by
  have hs := inv_run es (inv_startRound cards h hf)
  constructor
  · rw [revealedCount_eq, hs.rev_count]
    split_ifs <;> omega
  · rw [hs.lock_iff, ← hs.second_iff]

theorem spec_c1_witness :
    (buildBoard [⟨"uno", "one"⟩, ⟨"dos", "two"⟩, ⟨"tres", "three"⟩] ≠ [] ∧
      freshCards (buildBoard [⟨"uno", "one"⟩, ⟨"dos", "two"⟩, ⟨"tres", "three"⟩])) ∧
    (revealedCount (run (startRound (buildBoard
        [⟨"uno", "one"⟩, ⟨"dos", "two"⟩, ⟨"tres", "three"⟩]))
        [.click 0, .click 2, .mismatchTimeout, .click 1, .autoHide, .click 0,
         .click 1]) ≤ 2 ∧
      ((run (startRound (buildBoard
          [⟨"uno", "one"⟩, ⟨"dos", "two"⟩, ⟨"tres", "three"⟩]))
          [.click 0, .click 2, .mismatchTimeout, .click 1, .autoHide, .click 0,
           .click 1]).lockBoard = true ↔
        (run (startRound (buildBoard
          [⟨"uno", "one"⟩, ⟨"dos", "two"⟩, ⟨"tres", "three"⟩]))
          [.click 0, .click 2, .mismatchTimeout, .click 1, .autoHide, .click 0,
           .click 1]).secondCard.isSome = true)) :=
  ⟨⟨by decide, by decide⟩,
    spec_c1 _ (by decide) (by decide) _⟩

/-- Claim C4: a Matched card never leaves the Matched state at any later
event; `matchedCount` never decreases and moves only in steps of two; the
round is Won (winner message shown) exactly when `matchedCount` equals the
total number of cards on the board; and the Won transition happens at most
once in a round. -/
theorem spec_c4 (cards : List Card) (h : cards ≠ []) (hf : freshCards cards)
    (es : List GEvent) :
    (∀ (e : GEvent) (i : Nat) (c : Card),
        (run (startRound cards) es).cards[i]? = some c →
        c.state = CardState.Matched →
        ∃ c', (step (run (startRound cards) es) e).cards[i]? = some c' ∧
          c'.state = CardState.Matched) ∧
    (∀ e : GEvent,
        (step (run (startRound cards) es) e).matchedCount
            = (run (startRound cards) es).matchedCount ∨
        (step (run (startRound cards) es) e).matchedCount
            = (run (startRound cards) es).matchedCount + 2) ∧
    ((run (startRound cards) es).won = true ↔
        (run (startRound cards) es).matchedCount = cards.length) ∧
    (∀ m n : Nat, wonFlipAt (startRound cards) es m →
        wonFlipAt (startRound cards) es n → m = n) := by
  have hs := inv_run es (inv_startRound cards h hf)
  refine ⟨?_, ?_, ?_, ?_⟩
  · intro e i c hc hm
    have hm' : c.matchedCls = true := (state_matched_iff c).mp hm
    obtain ⟨c', hc', hm2⟩ := matched_persists_step (run (startRound cards) es) e i c hc hm'
    exact ⟨c', hc', (state_matched_iff c').mpr hm2⟩
  · intro e
    exact matchedCount_step (run (startRound cards) es) e
  · rw [hs.won_iff]
    have : (run (startRound cards) es).cards.length = cards.length := by
      rw [length_run, length_startRound]
    rw [this]
  · intro m n hm hn
    have h1 := won_flip_not_lt hm hn
    have h2 := won_flip_not_lt hn hm
    omega

theorem spec_c4_witness :
    (buildBoard [⟨"uno", "one"⟩, ⟨"dos", "two"⟩, ⟨"tres", "three"⟩] ≠ [] ∧
      freshCards (buildBoard [⟨"uno", "one"⟩, ⟨"dos", "two"⟩, ⟨"tres", "three"⟩])) ∧
    ((∀ (e : GEvent) (i : Nat) (c : Card),
        (run (startRound (buildBoard
          [⟨"uno", "one"⟩, ⟨"dos", "two"⟩, ⟨"tres", "three"⟩]))
          [.click 0, .click 1]).cards[i]? = some c →
        c.state = CardState.Matched →
        ∃ c', (step (run (startRound (buildBoard
          [⟨"uno", "one"⟩, ⟨"dos", "two"⟩, ⟨"tres", "three"⟩]))
          [.click 0, .click 1]) e).cards[i]? = some c' ∧
          c'.state = CardState.Matched) ∧
      (∀ e : GEvent,
        (step (run (startRound (buildBoard
          [⟨"uno", "one"⟩, ⟨"dos", "two"⟩, ⟨"tres", "three"⟩]))
          [.click 0, .click 1]) e).matchedCount
            = (run (startRound (buildBoard
          [⟨"uno", "one"⟩, ⟨"dos", "two"⟩, ⟨"tres", "three"⟩]))
          [.click 0, .click 1]).matchedCount ∨
        (step (run (startRound (buildBoard
          [⟨"uno", "one"⟩, ⟨"dos", "two"⟩, ⟨"tres", "three"⟩]))
          [.click 0, .click 1]) e).matchedCount
            = (run (startRound (buildBoard
          [⟨"uno", "one"⟩, ⟨"dos", "two"⟩, ⟨"tres", "three"⟩]))
          [.click 0, .click 1]).matchedCount + 2) ∧
      ((run (startRound (buildBoard
          [⟨"uno", "one"⟩, ⟨"dos", "two"⟩, ⟨"tres", "three"⟩]))
          [.click 0, .click 1]).won = true ↔
        (run (startRound (buildBoard
          [⟨"uno", "one"⟩, ⟨"dos", "two"⟩, ⟨"tres", "three"⟩]))
          [.click 0, .click 1]).matchedCount
          = (buildBoard [⟨"uno", "one"⟩, ⟨"dos", "two"⟩, ⟨"tres", "three"⟩]).length) ∧
      (∀ m n : Nat,
        wonFlipAt (startRound (buildBoard
          [⟨"uno", "one"⟩, ⟨"dos", "two"⟩, ⟨"tres", "three"⟩]))
          [.click 0, .click 1] m →
        wonFlipAt (startRound (buildBoard
          [⟨"uno", "one"⟩, ⟨"dos", "two"⟩, ⟨"tres", "three"⟩]))
          [.click 0, .click 1] n → m = n)) :=
  ⟨⟨by decide, by decide⟩, spec_c4 _ (by decide) (by decide) _⟩

theorem state_matchCard (c : Card) : (matchCard c).state = CardState.Matched := by
  unfold Card.state matchCard
  simp

theorem state_hideCard (c : Card) (h : c.matchedCls = false) :
    (hideCard c).state = CardState.Hidden := by
  unfold Card.state hideCard
  simp [h]

theorem state_revealCard (c : Card) (h : c.matchedCls = false) :
    (revealCard c).state = CardState.Revealed := by
  unfold Card.state revealCard
  simp [h]

theorem hideCard_revealCard (c : Card) : hideCard (revealCard c) = hideCard c := rfl

/-- Claim C2: on a second selection the board locks; if the two selected
cards' pair-identifiers agree, both become Matched with their click
listeners removed, `matchedCount` grows by 2, the slots clear and the board
is unlocked in the same event (and the round is Won when `matchedCount`
reaches the card count); if the identifiers differ, the board stays locked
until the 500 ms timeout, after which both cards are Hidden with cleared
text, `matchedCount` is unchanged, the slots clear and the board unlocks. -/
theorem spec_c2 (s : GameState) (j i : Nat) (cj ci : Card)
    (hfc : s.firstCard = some j) (hlock : s.lockBoard = false)
    (hj : s.cards[j]? = some cj) (hi : s.cards[i]? = some ci)
    (hl : ci.hasListener = true) (hij : j ≠ i)
    (hcjm : cj.matchedCls = false) (hcim : ci.matchedCls = false) :
    (pairKey cj.id = pairKey ci.id →
      ∃ cj' ci',
        (flipCard s i).cards[j]? = some cj' ∧
        (flipCard s i).cards[i]? = some ci' ∧
        cj'.state = CardState.Matched ∧ ci'.state = CardState.Matched ∧
        cj'.hasListener = false ∧ ci'.hasListener = false ∧
        (flipCard s i).matchedCount = s.matchedCount + 2 ∧
        (flipCard s i).firstCard = none ∧ (flipCard s i).secondCard = none ∧
        (flipCard s i).lockBoard = false ∧
        ((flipCard s i).matchedCount = s.cards.length → (flipCard s i).won = true)) ∧
    (pairKey cj.id ≠ pairKey ci.id →
      (flipCard s i).lockBoard = true ∧
      (fireMismatchTimer (flipCard s i)).cards[j]? = some (hideCard cj) ∧
      (fireMismatchTimer (flipCard s i)).cards[i]? = some (hideCard ci) ∧
      (hideCard cj).state = CardState.Hidden ∧
      (hideCard ci).state = CardState.Hidden ∧
      (hideCard cj).text = "" ∧ (hideCard ci).text = "" ∧
      (fireMismatchTimer (flipCard s i)).matchedCount = s.matchedCount ∧
      (fireMismatchTimer (flipCard s i)).firstCard = none ∧
      (fireMismatchTimer (flipCard s i)).secondCard = none ∧
      (fireMismatchTimer (flipCard s i)).lockBoard = false) ∧
    mismatchDelayMs = 500 := by
  have hid : idAt s.cards j = cj.id := by
    simp [idAt, hj]
  refine ⟨?_, ?_, rfl⟩
  · intro hkey
    have hkey' : pairKey (idAt s.cards j) = pairKey ci.id := by rw [hid]; exact hkey
    rw [flipCard_matchBranch hi hl hlock hfc hij hkey']
    have hc1i : (modifyCard s.cards i revealCard)[i]? = some (revealCard ci) :=
      getElem?_modifyCard_self revealCard hi
    have hc1j : (modifyCard s.cards i revealCard)[j]? = some cj := by
      rw [getElem?_modifyCard_ne revealCard (Ne.symm hij)]
      exact hj
    have hc2j : (modifyCard (modifyCard s.cards i revealCard) j matchCard)[j]?
        = some (matchCard cj) := getElem?_modifyCard_self matchCard hc1j
    have hc2i : (modifyCard (modifyCard s.cards i revealCard) j matchCard)[i]?
        = some (revealCard ci) := by
      rw [getElem?_modifyCard_ne matchCard hij]
      exact hc1i
    refine ⟨matchCard cj, matchCard (revealCard ci), ?_, ?_, state_matchCard cj,
      state_matchCard (revealCard ci), rfl, rfl, rfl, rfl, rfl, rfl, ?_⟩
    · dsimp only
      rw [getElem?_modifyCard_ne matchCard (Ne.symm hij)]
      exact hc2j
    · dsimp only
      exact getElem?_modifyCard_self matchCard hc2i
    · dsimp only
      intro hW
      rw [if_pos hW]
  · intro hkey
    have hkey' : ¬ pairKey (idAt s.cards j) = pairKey ci.id := by
      rw [hid]; exact hkey
    rw [flipCard_mismatchBranch hi hl hlock hfc hij hkey']
    have hp : ({ s with cards := modifyCard s.cards i revealCard,
                         secondCard := some i, lockBoard := true, flipTimer := false,
                         mismatchPending := true } : GameState).mismatchPending
        = true := rfl
    have hfc2 : ({ s with cards := modifyCard s.cards i revealCard,
                          secondCard := some i, lockBoard := true, flipTimer := false,
                          mismatchPending := true } : GameState).firstCard
        = some j := hfc
    have hsc2 : ({ s with cards := modifyCard s.cards i revealCard,
                          secondCard := some i, lockBoard := true, flipTimer := false,
                          mismatchPending := true } : GameState).secondCard
        = some i := rfl
    rw [fireMismatchTimer_on hp hfc2 hsc2]
    have hc1i : (modifyCard s.cards i revealCard)[i]? = some (revealCard ci) :=
      getElem?_modifyCard_self revealCard hi
    have hc1j : (modifyCard s.cards i revealCard)[j]? = some cj := by
      rw [getElem?_modifyCard_ne revealCard (Ne.symm hij)]
      exact hj
    have hc2j : (modifyCard (modifyCard s.cards i revealCard) j hideCard)[j]?
        = some (hideCard cj) := getElem?_modifyCard_self hideCard hc1j
    have hc2i : (modifyCard (modifyCard s.cards i revealCard) j hideCard)[i]?
        = some (revealCard ci) := by
      rw [getElem?_modifyCard_ne hideCard hij]
      exact hc1i
    refine ⟨rfl, ?_, ?_, state_hideCard cj hcjm, state_hideCard ci hcim,
      rfl, rfl, rfl, rfl, rfl, rfl⟩
    · dsimp only
      rw [getElem?_modifyCard_ne hideCard (Ne.symm hij)]
      exact hc2j
    · dsimp only
      rw [getElem?_modifyCard_self hideCard hc2i, hideCard_revealCard]

/-! ### Concrete demonstration round (used by the witnesses)

A round built from three stored pairs; card 0 is `input-0` (`uno`), card 1
is `output-0` (`one`), card 2 is `input-1` (`dos`), and so on.  (The shuffle
oracle is the identity here, which is one admissible shuffle.) -/

def demoPairs : List Translation :=
  [⟨"uno", "one"⟩, ⟨"dos", "two"⟩, ⟨"tres", "three"⟩]

def demoBoard : List Card := buildBoard demoPairs

/-- State after the reveal delay and a first click on card 0. -/
def demoS1 : GameState := run (startRound demoBoard) [.click 0]

/-- State locked by a mismatching second selection (cards 0 and 2). -/
def demoLock : GameState := run (startRound demoBoard) [.click 0, .click 2]

/-- Card 0 as it looks inside `demoS1` (revealed first selection). -/
def demoCj : Card := revealCard (setupCard (createBox "uno" ("input-" ++ Nat.repr 0)))

/-- Card 1 (`output-0`) as it looks inside `demoS1` (still hidden). -/
def demoCi : Card := setupCard (createBox "one" ("output-" ++ Nat.repr 0))

/-- Card 0 as it looks at round start (hidden, clickable). -/
def demoC0 : Card := setupCard (createBox "uno" ("input-" ++ Nat.repr 0))

theorem spec_c2_witness :
    (demoS1.firstCard = some 0 ∧ demoS1.lockBoard = false ∧
      demoS1.cards[0]? = some demoCj ∧ demoS1.cards[1]? = some demoCi ∧
      demoCi.hasListener = true ∧ (0 : Nat) ≠ 1 ∧
      demoCj.matchedCls = false ∧ demoCi.matchedCls = false) ∧
    ((pairKey demoCj.id = pairKey demoCi.id →
      ∃ cj' ci',
        (flipCard demoS1 1).cards[0]? = some cj' ∧
        (flipCard demoS1 1).cards[1]? = some ci' ∧
        cj'.state = CardState.Matched ∧ ci'.state = CardState.Matched ∧
        cj'.hasListener = false ∧ ci'.hasListener = false ∧
        (flipCard demoS1 1).matchedCount = demoS1.matchedCount + 2 ∧
        (flipCard demoS1 1).firstCard = none ∧
        (flipCard demoS1 1).secondCard = none ∧
        (flipCard demoS1 1).lockBoard = false ∧
        ((flipCard demoS1 1).matchedCount = demoS1.cards.length →
          (flipCard demoS1 1).won = true)) ∧
    (pairKey demoCj.id ≠ pairKey demoCi.id →
      (flipCard demoS1 1).lockBoard = true ∧
      (fireMismatchTimer (flipCard demoS1 1)).cards[0]? = some (hideCard demoCj) ∧
      (fireMismatchTimer (flipCard demoS1 1)).cards[1]? = some (hideCard demoCi) ∧
      (hideCard demoCj).state = CardState.Hidden ∧
      (hideCard demoCi).state = CardState.Hidden ∧
      (hideCard demoCj).text = "" ∧ (hideCard demoCi).text = "" ∧
      (fireMismatchTimer (flipCard demoS1 1)).matchedCount = demoS1.matchedCount ∧
      (fireMismatchTimer (flipCard demoS1 1)).firstCard = none ∧
      (fireMismatchTimer (flipCard demoS1 1)).secondCard = none ∧
      (fireMismatchTimer (flipCard demoS1 1)).lockBoard = false) ∧
    mismatchDelayMs = 500) :=
  ⟨by decide,
    spec_c2 demoS1 0 1 demoCj demoCi (by decide) (by decide) (by decide)
      (by decide) (by decide) (by decide) (by decide) (by decide)⟩

/-- Claim C3: a click is a no-op on a locked board and on the current first
selection; an accepted first selection reveals the card and arms the 2000 ms
auto-hide timer, whose firing hides the card again and clears the slot
without any match or mismatch resolution; and any accepted selection cancels
the pending timer (after a second selection no auto-hide timer is pending,
so firing it changes nothing). -/
theorem spec_c3 (s : GameState) :
    (∀ i : Nat, s.lockBoard = true → flipCard s i = s) ∧
    (∀ i : Nat, s.firstCard = some i → flipCard s i = s) ∧
    (∀ (i : Nat) (c : Card), s.cards[i]? = some c → c.hasListener = true →
      s.lockBoard = false → s.firstCard = none → c.matchedCls = false →
      ((flipCard s i).cards[i]? = some (revealCard c) ∧
       (revealCard c).state = CardState.Revealed ∧
       (flipCard s i).firstCard = some i ∧
       (flipCard s i).flipTimer = true ∧
       (fireFlipTimer (flipCard s i)).cards[i]? = some (hideCard c) ∧
       (hideCard c).state = CardState.Hidden ∧
       (fireFlipTimer (flipCard s i)).firstCard = none ∧
       (fireFlipTimer (flipCard s i)).flipTimer = false ∧
       (fireFlipTimer (flipCard s i)).matchedCount = s.matchedCount ∧
       (fireFlipTimer (flipCard s i)).mismatchPending = s.mismatchPending)) ∧
    (∀ (i j : Nat) (c : Card), s.cards[i]? = some c → c.hasListener = true →
      s.lockBoard = false → s.firstCard = some j → j ≠ i →
      ((flipCard s i).flipTimer = false ∧
        fireFlipTimer (flipCard s i) = flipCard s i)) ∧
    autoHideDelayMs = 2000 := by
  refine ⟨?_, ?_, ?_, ?_, rfl⟩
  · intro i hlk
    cases h : s.cards[i]? with
    | none => exact flipCard_oob h
    | some c => exact flipCard_guard h (Or.inl hlk)
  · intro i hfc
    cases h : s.cards[i]? with
    | none => exact flipCard_oob h
    | some c => exact flipCard_guard h (Or.inr hfc)
  · intro i c h hl hlock hfc hcm
    rw [flipCard_first h hl hlock hfc]
    have hfire : fireFlipTimer
        ({ s with cards := modifyCard s.cards i revealCard,
                  firstCard := some i, flipTimer := true } : GameState)
        = { s with cards := modifyCard (modifyCard s.cards i revealCard) i hideCard,
                   firstCard := none, flipTimer := false } :=
      fireFlipTimer_on rfl rfl
    rw [hfire]
    have hci : (modifyCard s.cards i revealCard)[i]? = some (revealCard c) :=
      getElem?_modifyCard_self revealCard h
    refine ⟨hci, state_revealCard c hcm, rfl, rfl, ?_,
      state_hideCard c hcm, rfl, rfl, rfl, rfl⟩
    dsimp only
    rw [getElem?_modifyCard_self hideCard hci, hideCard_revealCard]
  · intro i j c h hl hlock hfc hne
    by_cases hkey : pairKey (idAt s.cards j) = pairKey c.id
    · rw [flipCard_matchBranch h hl hlock hfc hne hkey]
      exact ⟨rfl, fireFlipTimer_off rfl⟩
    · rw [flipCard_mismatchBranch h hl hlock hfc hne hkey]
      exact ⟨rfl, fireFlipTimer_off rfl⟩

theorem spec_c3_witness :
    (demoLock.lockBoard = true ∧ flipCard demoLock 1 = demoLock) ∧
    (demoS1.firstCard = some 0 ∧ flipCard demoS1 0 = demoS1) ∧
    ((startRound demoBoard).cards[0]? = some demoC0 ∧
      demoC0.hasListener = true ∧
      (startRound demoBoard).lockBoard = false ∧
      (startRound demoBoard).firstCard = none ∧
      demoC0.matchedCls = false ∧
      ((flipCard (startRound demoBoard) 0).cards[0]? = some (revealCard demoC0) ∧
       (revealCard demoC0).state = CardState.Revealed ∧
       (flipCard (startRound demoBoard) 0).firstCard = some 0 ∧
       (flipCard (startRound demoBoard) 0).flipTimer = true ∧
       (fireFlipTimer (flipCard (startRound demoBoard) 0)).cards[0]?
          = some (hideCard demoC0) ∧
       (hideCard demoC0).state = CardState.Hidden ∧
       (fireFlipTimer (flipCard (startRound demoBoard) 0)).firstCard = none ∧
       (fireFlipTimer (flipCard (startRound demoBoard) 0)).flipTimer = false ∧
       (fireFlipTimer (flipCard (startRound demoBoard) 0)).matchedCount
          = (startRound demoBoard).matchedCount ∧
       (fireFlipTimer (flipCard (startRound demoBoard) 0)).mismatchPending
          = (startRound demoBoard).mismatchPending)) ∧
    (demoS1.cards[1]? = some demoCi ∧ demoCi.hasListener = true ∧
      demoS1.lockBoard = false ∧ demoS1.firstCard = some 0 ∧ (0 : Nat) ≠ 1 ∧
      ((flipCard demoS1 1).flipTimer = false ∧
        fireFlipTimer (flipCard demoS1 1) = flipCard demoS1 1)) ∧
    autoHideDelayMs = 2000 :=
  ⟨⟨by decide, (spec_c3 demoLock).1 1 (by decide)⟩,
   ⟨by decide, (spec_c3 demoS1).2.1 0 (by decide)⟩,
   ⟨by decide, by decide, by decide, by decide, by decide,
     (spec_c3 (startRound demoBoard)).2.2.1 0 demoC0 (by decide) (by decide)
       (by decide) (by decide) (by decide)⟩,
   ⟨by decide, by decide, by decide, by decide, by decide,
     (spec_c3 demoS1).2.2.2.1 1 0 demoCi (by decide) (by decide) (by decide)
       (by decide) (by decide)⟩,
   rfl⟩

/-! ### Deduplication by input (`uniqueTranslations`)

JavaScript `Map` semantics: the key keeps its first-insertion position, but
duplicate insertion overwrites the value, so the record that survives for a
duplicated input is the LAST one in the sequence. -/

/-- The keys of a map, in order. -/
def ukeys (m : List MapEntry) : List String := m.map Prod.fst

/-- Lookup in the entry list. -/
def mlookup : List MapEntry → String → Option Translation
  | [], _ => none
  | (k', v) :: rest, k => if k' = k then some v else mlookup rest k

/-- The last record of the list whose input is `k`, if any. -/
def lastWith : List Translation → String → Option Translation
  | [], _ => none
  | t :: ts, k =>
      match lastWith ts k with
      | some r => some r
      | none => if t.input = k then some t else none

/-- First-of-two option. -/
def orO (a b : Option Translation) : Option Translation :=
  match a with
  | some t => some t
  | none => b

theorem mapSet_nil (k : String) (v : Translation) : mapSet [] k v = [(k, v)] := rfl

theorem mapSet_cons (k0 : String) (v0 : Translation) (rest : List MapEntry)
    (k : String) (v : Translation) :
    mapSet ((k0, v0) :: rest) k v
      = if k0 = k then (k0, v) :: rest else (k0, v0) :: mapSet rest k v := rfl

theorem mlookup_cons (k0 : String) (v0 : Translation) (rest : List MapEntry)
    (k : String) :
    mlookup ((k0, v0) :: rest) k
      = if k0 = k then some v0 else mlookup rest k := rfl

theorem mlookup_mapSet (m : List MapEntry) (k k' : String) (v : Translation) :
    mlookup (mapSet m k v) k' = if k' = k then some v else mlookup m k' := by
  induction m with
  | nil =>
    by_cases h : k' = k
    · subst h
      simp [mapSet_nil, mlookup_cons]
    · have hne : ¬ (k = k') := fun e => h e.symm
      simp [mapSet_nil, mlookup_cons, h, hne, mlookup]
  | cons p rest ih =>
    obtain ⟨k0, v0⟩ := p
    by_cases h0 : k0 = k
    · subst h0
      by_cases h : k' = k0
      · subst h
        simp [mapSet_cons, mlookup_cons]
      · have hne : ¬ (k0 = k') := fun e => h e.symm
        simp [mapSet_cons, mlookup_cons, h, hne]
    · by_cases h : k0 = k'
      · subst h
        simp [mapSet_cons, mlookup_cons, h0]
      · have hne : ¬ (k' = k0) := fun e => h e.symm
        simp [mapSet_cons, mlookup_cons, h, hne, h0, ih]

theorem ukeys_cons (k0 : String) (v0 : Translation) (rest : List MapEntry) :
    ukeys ((k0, v0) :: rest) = k0 :: ukeys rest := rfl

theorem ukeys_mapSet (m : List MapEntry) (k : String) (v : Translation) :
    ukeys (mapSet m k v) = if k ∈ ukeys m then ukeys m else ukeys m ++ [k] := by
  induction m with
  | nil => simp [mapSet_nil, ukeys]
  | cons p rest ih =>
    obtain ⟨k0, v0⟩ := p
    rw [mapSet_cons]
    by_cases h0 : k0 = k
    · subst h0
      rw [if_pos rfl, ukeys_cons, ukeys_cons,
        if_pos (List.mem_cons_self k0 (ukeys rest))]
    · rw [if_neg h0, ukeys_cons, ukeys_cons, ih]
      have hcond : (k ∈ k0 :: ukeys rest) ↔ (k ∈ ukeys rest) := by
        rw [List.mem_cons]
        exact or_iff_right (fun e => h0 e.symm)
      by_cases hm : k ∈ ukeys rest
      · rw [if_pos hm, if_pos (hcond.mpr hm)]
      · rw [if_neg hm, if_neg (fun hx => hm (hcond.mp hx))]
        rfl

theorem nodup_ukeys_mapSet {m : List MapEntry} (k : String) (v : Translation)
    (h : (ukeys m).Nodup) : (ukeys (mapSet m k v)).Nodup := by
  rw [ukeys_mapSet]
  by_cases hm : k ∈ ukeys m
  · rw [if_pos hm]; exact h
  · rw [if_neg hm]
    rw [List.nodup_append]
    exact ⟨h, List.nodup_singleton k, by simpa using hm⟩

theorem mem_ukeys_mapSet (m : List MapEntry) (k k' : String) (v : Translation) :
    k' ∈ ukeys (mapSet m k v) ↔ k' ∈ ukeys m ∨ k' = k := by
  rw [ukeys_mapSet]
  by_cases hm : k ∈ ukeys m
  · rw [if_pos hm]
    constructor
    · exact Or.inl
    · rintro (h | h)
      · exact h
      · subst h; exact hm
  · rw [if_neg hm]
    simp

theorem nodup_ukeys_mapSetAll (ts : List Translation) :
    ∀ m : List MapEntry, (ukeys m).Nodup → (ukeys (mapSetAll m ts)).Nodup := by
  induction ts with
  | nil => intro m h; exact h
  | cons t ts ih =>
    intro m h
    exact ih (mapSet m t.input t) (nodup_ukeys_mapSet t.input t h)

theorem mem_ukeys_mapSetAll (ts : List Translation) :
    ∀ (m : List MapEntry) (k : String),
      k ∈ ukeys (mapSetAll m ts) ↔ k ∈ ukeys m ∨ k ∈ ts.map Translation.input := by
  induction ts with
  | nil => intro m k; simp [mapSetAll]
  | cons t ts ih =>
    intro m k
    show k ∈ ukeys (mapSetAll (mapSet m t.input t) ts) ↔ _
    rw [ih (mapSet m t.input t) k, mem_ukeys_mapSet]
    simp only [List.map_cons, List.mem_cons]
    constructor
    · rintro ((h | h) | h)
      · exact Or.inl h
      · exact Or.inr (Or.inl h)
      · exact Or.inr (Or.inr h)
    · rintro (h | h | h)
      · exact Or.inl (Or.inl h)
      · exact Or.inl (Or.inr h)
      · exact Or.inr h

theorem wf_mapSet {m : List MapEntry} (hm : ∀ p ∈ m, p.2.input = p.1)
    (t : Translation) : ∀ p ∈ mapSet m t.input t, p.2.input = p.1 := by
  induction m with
  | nil =>
    intro p hp
    rw [mapSet_nil] at hp
    rcases List.mem_cons.mp hp with h | h
    · subst h; rfl
    · simp at h
  | cons q rest ih =>
    obtain ⟨k0, v0⟩ := q
    intro p hp
    rw [mapSet_cons] at hp
    by_cases h0 : k0 = t.input
    · rw [if_pos h0] at hp
      rcases List.mem_cons.mp hp with h | h
      · subst h
        show t.input = k0
        exact h0.symm
      · exact hm p (List.mem_cons_of_mem _ h)
    · rw [if_neg h0] at hp
      rcases List.mem_cons.mp hp with h | h
      · subst h
        exact hm (k0, v0) (List.mem_cons_self _ _)
      · exact ih (fun q hq => hm q (List.mem_cons_of_mem _ hq)) p h

theorem wf_mapSetAll (ts : List Translation) :
    ∀ m : List MapEntry, (∀ p ∈ m, p.2.input = p.1) →
      ∀ p ∈ mapSetAll m ts, p.2.input = p.1 := by
  induction ts with
  | nil => intro m hm; exact hm
  | cons t ts ih =>
    intro m hm
    exact ih (mapSet m t.input t) (wf_mapSet hm t)

theorem mlookup_mapSetAll (ts : List Translation) :
    ∀ (m : List MapEntry) (k : String),
      mlookup (mapSetAll m ts) k = orO (lastWith ts k) (mlookup m k) := by
  induction ts with
  | nil => intro m k; simp [mapSetAll, lastWith, orO]
  | cons t ts ih =>
    intro m k
    show mlookup (mapSetAll (mapSet m t.input t) ts) k = _
    rw [ih (mapSet m t.input t) k, mlookup_mapSet]
    show _ = orO (match lastWith ts k with
      | some r => some r
      | none => if t.input = k then some t else none) (mlookup m k)
    cases hr : lastWith ts k with
    | some r => simp [orO]
    | none =>
      simp only [orO]
      by_cases h : k = t.input
      · rw [if_pos h, if_pos h.symm]
      · rw [if_neg h, if_neg (fun e : t.input = k => h e.symm)]

theorem mlookup_of_mem_nodup {m : List MapEntry} (hnd : (ukeys m).Nodup)
    {k : String} {v : Translation} (h : (k, v) ∈ m) : mlookup m k = some v := by
  induction m with
  | nil => simp at h
  | cons p rest ih =>
    obtain ⟨k0, v0⟩ := p
    have hcons : ukeys ((k0, v0) :: rest) = k0 :: ukeys rest := rfl
    rw [hcons, List.nodup_cons] at hnd
    rcases List.mem_cons.mp h with hp | hp
    · have hk : k = k0 := congrArg Prod.fst hp
      have hv : v = v0 := congrArg Prod.snd hp
      subst hk
      subst hv
      simp [mlookup]
    · have hk : k ≠ k0 := by
        intro e
        subst e
        exact hnd.1 (List.mem_map.mpr ⟨(k, v), hp, rfl⟩)
      simp only [mlookup, if_neg (fun e : k0 = k => hk e.symm)]
      exact ih hnd.2 hp

theorem map_snd_input_eq_ukeys {m : List MapEntry}
    (hm : ∀ p ∈ m, p.2.input = p.1) :
    (m.map Prod.snd).map Translation.input = ukeys m := by
  induction m with
  | nil => rfl
  | cons p rest ih =>
    simp only [List.map_cons, ukeys, List.map_map]
    have h1 := hm p (List.mem_cons_self _ _)
    have h2 : (rest.map Prod.snd).map Translation.input = ukeys rest :=
      ih (fun q hq => hm q (List.mem_cons_of_mem _ hq))
    simp only [ukeys, List.map_map] at h2
    rw [h1] at *
    exact congrArg (p.1 :: ·) h2

theorem uniq_inputs_eq_ukeys (ts : List Translation) :
    (uniqueTranslations ts).map Translation.input = ukeys (mapSetAll [] ts) :=
  map_snd_input_eq_ukeys (wf_mapSetAll ts [] (by intro p hp; simp at hp))

theorem uniq_inputs_nodup (ts : List Translation) :
    ((uniqueTranslations ts).map Translation.input).Nodup := by
  rw [uniq_inputs_eq_ukeys]
  exact nodup_ukeys_mapSetAll ts [] (by simp [ukeys])

theorem mem_uniq_inputs (ts : List Translation) (k : String) :
    k ∈ (uniqueTranslations ts).map Translation.input ↔
      k ∈ ts.map Translation.input := by
  rw [uniq_inputs_eq_ukeys, mem_ukeys_mapSetAll ts [] k]
  simp [ukeys]

theorem length_uniq (ts : List Translation) :
    (uniqueTranslations ts).length = distinctInputCount ts := by
  have h1 : ((uniqueTranslations ts).map Translation.input).Perm
      ((ts.map Translation.input).dedup) := by
    rw [List.perm_ext_iff_of_nodup (uniq_inputs_nodup ts) (List.nodup_dedup _)]
    intro a
    rw [mem_uniq_inputs, List.mem_dedup]
  have h2 := h1.length_eq
  rw [List.length_map] at h2
  exact h2

theorem uniq_last_occurrence (ts : List Translation) :
    ∀ t ∈ uniqueTranslations ts, lastWith ts t.input = some t := by
  intro t ht
  obtain ⟨p, hp, hpt⟩ := List.mem_map.mp ht
  obtain ⟨pk, pv⟩ := p
  have hwf := wf_mapSetAll ts [] (by intro q hq; simp at hq)
  have hnd : (ukeys (mapSetAll [] ts)).Nodup :=
    nodup_ukeys_mapSetAll ts [] (by simp [ukeys])
  have hpv : pv = t := hpt
  subst hpv
  have hkey : pv.input = pk := hwf (pk, pv) hp
  have hpmem : (pv.input, pv) ∈ mapSetAll [] ts := by
    rw [hkey]
    exact hp
  have hlk := mlookup_of_mem_nodup hnd hpmem
  have hall := mlookup_mapSetAll ts [] pv.input
  rw [hlk] at hall
  simp only [mlookup, orO] at hall
  cases hr : lastWith ts pv.input with
  | some r => rw [hr] at hall; exact hall ▸ rfl
  | none => rw [hr] at hall; simp at hall

/-- Claim C5: with fewer than 3 distinct input texts the game refuses to
build a round and shows the "not enough words" message with the board
disabled; a failed snapshot retrieval yields the empty record set, which
takes the same path.  All functions involved are total, so neither case can
crash the engine. -/
theorem spec_c5 (ts : List Translation)
    (shuffleT : List Translation → List Translation)
    (shuffleB : List Card → List Card)
    (h : distinctInputCount ts < 3) :
    initializeGame shuffleT shuffleB ts = .insufficientData notEnoughMsg ∧
    fetchTranslations none = [] ∧
    initializeGame shuffleT shuffleB (fetchTranslations none)
      = .insufficientData notEnoughMsg := by
  have hlen : (uniqueTranslations ts).length < 3 := by
    rw [length_uniq]
    exact h
  refine ⟨?_, rfl, ?_⟩
  · simp only [initializeGame]
    rw [if_pos hlen]
  · simp only [initializeGame]
    rw [if_pos (by decide : (uniqueTranslations (fetchTranslations none)).length < 3)]

theorem spec_c5_witness :
    distinctInputCount [⟨"sol", "sun"⟩, ⟨"luna", "moon"⟩, ⟨"sol", "soleil"⟩] < 3 ∧
    (initializeGame id id [⟨"sol", "sun"⟩, ⟨"luna", "moon"⟩, ⟨"sol", "soleil"⟩]
        = .insufficientData notEnoughMsg ∧
      fetchTranslations none = [] ∧
      initializeGame id id (fetchTranslations none)
        = .insufficientData notEnoughMsg) :=
  ⟨by decide, spec_c5 _ id id (by decide)⟩

/-- Counterexample to claim C6 as stated: deduplicating two records that
share the input text keeps the SECOND (last) record, not the first
occurrence — JavaScript `Map` overwrites the value on duplicate keys. -/
theorem spec_c6_counterexample :
    uniqueTranslations [⟨"hola", "hello"⟩, ⟨"hola", "hi"⟩] = [⟨"hola", "hi"⟩] ∧
    uniqueTranslations [⟨"hola", "hello"⟩, ⟨"hola", "hi"⟩] ≠ [⟨"hola", "hello"⟩] := by
  decide

/-- Claim C6 amended: deduplication keeps exactly one record per distinct
input text (the surviving inputs are duplicate-free and are exactly the
inputs of the original sequence), and for every duplicated input text the
record that survives is the LAST occurrence in the sequence. -/
theorem spec_c6_amended (ts : List Translation) :
    ((uniqueTranslations ts).map Translation.input).Nodup ∧
    (∀ k : String, k ∈ (uniqueTranslations ts).map Translation.input ↔
      k ∈ ts.map Translation.input) ∧
    (∀ t ∈ uniqueTranslations ts, lastWith ts t.input = some t) :=
  ⟨uniq_inputs_nodup ts, mem_uniq_inputs ts, uniq_last_occurrence ts⟩

theorem spec_c6_amended_witness :
    ((⟨"hola", "hi"⟩ : Translation) ∈
      uniqueTranslations [⟨"hola", "hello"⟩, ⟨"hola", "hi"⟩]) ∧
    lastWith [⟨"hola", "hello"⟩, ⟨"hola", "hi"⟩] "hola" = some ⟨"hola", "hi"⟩ :=
  ⟨by decide,
    (spec_c6_amended [⟨"hola", "hello"⟩, ⟨"hola", "hi"⟩]).2.2
      ⟨"hola", "hi"⟩ (by decide)⟩

/-- Claim C7: with at least 3 distinct input texts the game builds a round
whose selected pairs number exactly `min 6 (max 3 d)` (the clamp of the
distinct-input count `d` to `[3, 6]`), drawn without replacement: their
inputs are pairwise distinct, no pair repeats, and every selected pair comes
from the deduplicated pool. -/
theorem spec_c7 (ts : List Translation)
    (shuffleT : List Translation → List Translation)
    (shuffleB : List Card → List Card)
    (hperm : ∀ l, (shuffleT l).Perm l)
    (h3 : 3 ≤ distinctInputCount ts) :
    ∃ sel cards,
      initializeGame shuffleT shuffleB ts = .board sel cards ∧
      sel.length = min 6 (max 3 (distinctInputCount ts)) ∧
      3 ≤ sel.length ∧ sel.length ≤ 6 ∧
      (sel.map Translation.input).Nodup ∧
      sel.Nodup ∧
      (∀ t ∈ sel, t ∈ uniqueTranslations ts) := by
  have hlen : (uniqueTranslations ts).length = distinctInputCount ts := length_uniq ts
  have hnotlt : ¬ (uniqueTranslations ts).length < 3 := by omega
  have hsellen : (getRandomSubset shuffleT (uniqueTranslations ts)
      (min 6 (max 3 (uniqueTranslations ts).length))).length
      = min 6 (max 3 (distinctInputCount ts)) := by
    show (List.take _ (shuffleT (uniqueTranslations ts))).length = _
    rw [List.length_take, (hperm (uniqueTranslations ts)).length_eq, hlen]
    omega
  have hmapnodup : ((getRandomSubset shuffleT (uniqueTranslations ts)
      (min 6 (max 3 (uniqueTranslations ts).length))).map Translation.input).Nodup := by
    show ((List.take _ (shuffleT (uniqueTranslations ts))).map Translation.input).Nodup
    rw [List.map_take]
    refine List.Nodup.sublist (List.take_sublist _ _) ?_
    exact ((hperm (uniqueTranslations ts)).map Translation.input).symm.nodup
      (uniq_inputs_nodup ts)
  refine ⟨getRandomSubset shuffleT (uniqueTranslations ts)
      (min 6 (max 3 (uniqueTranslations ts).length)),
    shuffleB (buildBoard (getRandomSubset shuffleT (uniqueTranslations ts)
      (min 6 (max 3 (uniqueTranslations ts).length)))),
    ?_, hsellen, ?_, ?_, hmapnodup, ?_, ?_⟩
  · simp only [initializeGame]
    rw [if_neg hnotlt]
  · omega
  · omega
  · exact List.Nodup.of_map Translation.input hmapnodup
  · intro t htm
    have h1 : t ∈ shuffleT (uniqueTranslations ts) :=
      (List.take_sublist _ _).subset htm
    exact ((hperm (uniqueTranslations ts)).mem_iff).mp h1

theorem spec_c7_witness :
    (∀ l : List Translation, (id l).Perm l) ∧
    3 ≤ distinctInputCount
      [⟨"sol", "sun"⟩, ⟨"luna", "moon"⟩, ⟨"mar", "sea"⟩, ⟨"cielo", "sky"⟩] ∧
    (∃ sel cards,
      initializeGame id id
          [⟨"sol", "sun"⟩, ⟨"luna", "moon"⟩, ⟨"mar", "sea"⟩, ⟨"cielo", "sky"⟩]
        = .board sel cards ∧
      sel.length = min 6 (max 3 (distinctInputCount
        [⟨"sol", "sun"⟩, ⟨"luna", "moon"⟩, ⟨"mar", "sea"⟩, ⟨"cielo", "sky"⟩])) ∧
      3 ≤ sel.length ∧ sel.length ≤ 6 ∧
      (sel.map Translation.input).Nodup ∧
      sel.Nodup ∧
      (∀ t ∈ sel, t ∈ uniqueTranslations
        [⟨"sol", "sun"⟩, ⟨"luna", "moon"⟩, ⟨"mar", "sea"⟩, ⟨"cielo", "sky"⟩])) :=
  ⟨fun l => List.Perm.refl l, by decide,
    spec_c7 _ id id (fun l => List.Perm.refl l) (by decide)⟩

/-! ### The board builder (claim C8) -/

/-- Carrying pair-identifier `i`: the card id is `input-i` or `output-i`. -/
def pairIdPred (i : Nat) (c : Card) : Bool :=
  c.id == ("input-" ++ Nat.repr i) || c.id == ("output-" ++ Nat.repr i)

theorem outputId_ne_inputId (a b : Nat) :
    ("output-" ++ Nat.repr a) ≠ ("input-" ++ Nat.repr b) :=
  fun h => inputId_ne_outputId b a h.symm

theorem pairIdPred_inputBox (i n : Nat) (content : String) :
    pairIdPred i (createBox content ("input-" ++ Nat.repr n)) = decide (n = i) := by
  unfold pairIdPred createBox
  by_cases h : n = i
  · subst h
    simp
  · have h1 : ¬ (("input-" ++ Nat.repr n : String) = "input-" ++ Nat.repr i) :=
      fun e => h (inputId_inj e)
    have h2 : ¬ (("input-" ++ Nat.repr n : String) = "output-" ++ Nat.repr i) :=
      inputId_ne_outputId n i
    simp [h1, h2, h]

theorem pairIdPred_outputBox (i n : Nat) (content : String) :
    pairIdPred i (createBox content ("output-" ++ Nat.repr n)) = decide (n = i) := by
  unfold pairIdPred createBox
  by_cases h : n = i
  · subst h
    simp
  · have h1 : ¬ (("output-" ++ Nat.repr n : String) = "input-" ++ Nat.repr i) :=
      outputId_ne_inputId n i
    have h2 : ¬ (("output-" ++ Nat.repr n : String) = "output-" ++ Nat.repr i) :=
      fun e => h (outputId_inj e)
    simp [h1, h2, h]

theorem length_buildBoardFrom (l : List Translation) :
    ∀ n : Nat, (buildBoardFrom n l).length = 2 * l.length := by
  induction l with
  | nil => intro n; rfl
  | cons t l ih =>
    intro n
    show (buildBoardFrom (n + 1) l).length + 1 + 1 = 2 * (l.length + 1)
    rw [ih (n + 1)]
    omega

theorem countP_buildBoardFrom (i : Nat) (l : List Translation) :
    ∀ n : Nat, (buildBoardFrom n l).countP (pairIdPred i)
      = if n ≤ i ∧ i < n + l.length then 2 else 0 := by
  induction l with
  | nil =>
    intro n
    rw [if_neg (by simp : ¬ (n ≤ i ∧ i < n + List.length ([] : List Translation)))]
    rfl
  | cons t l ih =>
    intro n
    show List.countP (pairIdPred i)
      (createBox t.input ("input-" ++ Nat.repr n) ::
        createBox t.output ("output-" ++ Nat.repr n) :: buildBoardFrom (n + 1) l) = _
    rw [List.countP_cons, List.countP_cons, ih (n + 1),
      pairIdPred_inputBox i n t.input, pairIdPred_outputBox i n t.output]
    simp only [decide_eq_true_eq, List.length_cons]
    split_ifs <;> omega

theorem mem_buildBoardFrom (l : List Translation) :
    ∀ (n i : Nat) (t : Translation), l[i]? = some t →
      createBox t.input ("input-" ++ Nat.repr (n + i)) ∈ buildBoardFrom n l ∧
      createBox t.output ("output-" ++ Nat.repr (n + i)) ∈ buildBoardFrom n l := by
  induction l with
  | nil => intro n i t h; simp at h
  | cons t0 l ih =>
    intro n i t h
    cases i with
    | zero =>
      rw [List.getElem?_cons_zero] at h
      injection h with h
      subst h
      constructor
      · show _ ∈ _ :: _ :: _
        simp
      · show _ ∈ _ :: _ :: _
        simp
    | succ i' =>
      rw [List.getElem?_cons_succ] at h
      obtain ⟨h1, h2⟩ := ih (n + 1) i' t h
      have harith : n + 1 + i' = n + (i' + 1) := by omega
      rw [harith] at h1 h2
      exact ⟨List.mem_cons_of_mem _ (List.mem_cons_of_mem _ h1),
        List.mem_cons_of_mem _ (List.mem_cons_of_mem _ h2)⟩

theorem state_createBox (content id : String) :
    (createBox content id).state = CardState.Initial := rfl

theorem initial_buildBoardFrom (l : List Translation) :
    ∀ n : Nat, ∀ c ∈ buildBoardFrom n l, c.state = CardState.Initial := by
  induction l with
  | nil => intro n c hc; simp [buildBoardFrom] at hc
  | cons t l ih =>
    intro n c hc
    rcases List.mem_cons.mp hc with h | hc2
    · subst h; rfl
    · rcases List.mem_cons.mp hc2 with h | hc3
      · subst h; rfl
      · exact ih (n + 1) c hc3

/-- Claim C8: `buildBoard` on `k` pairs yields exactly `2k` cards; for each
pair index `i` exactly two cards carry the pair-identifier `i`, namely one
card with id `input-i` holding the pair's input text and one with id
`output-i` holding the output text; every card starts in state Initial; and
the displayed order is a permutation of these cards. -/
theorem spec_c8 (pairs : List Translation) (shuffleB : List Card → List Card)
    (hperm : ∀ l, (shuffleB l).Perm l) :
    (buildBoard pairs).length = 2 * pairs.length ∧
    (∀ i : Nat, i < pairs.length →
      (buildBoard pairs).countP (pairIdPred i) = 2) ∧
    (∀ (i : Nat) (t : Translation), pairs[i]? = some t →
      (∃ c ∈ buildBoard pairs, c.id = "input-" ++ Nat.repr i ∧
        c.content = t.input ∧ c.state = CardState.Initial) ∧
      (∃ c ∈ buildBoard pairs, c.id = "output-" ++ Nat.repr i ∧
        c.content = t.output ∧ c.state = CardState.Initial)) ∧
    (∀ c ∈ buildBoard pairs, c.state = CardState.Initial) ∧
    (shuffleB (buildBoard pairs)).Perm (buildBoard pairs) := by
  refine ⟨length_buildBoardFrom pairs 0, ?_, ?_, initial_buildBoardFrom pairs 0,
    hperm (buildBoard pairs)⟩
  · intro i hi
    rw [show buildBoard pairs = buildBoardFrom 0 pairs from rfl,
      countP_buildBoardFrom i pairs 0, if_pos (by omega)]
  · intro i t h
    obtain ⟨h1, h2⟩ := mem_buildBoardFrom pairs 0 i t h
    rw [Nat.zero_add] at h1 h2
    exact ⟨⟨createBox t.input ("input-" ++ Nat.repr i), h1, rfl, rfl, rfl⟩,
      ⟨createBox t.output ("output-" ++ Nat.repr i), h2, rfl, rfl, rfl⟩⟩

theorem spec_c8_witness :
    (∀ l : List Card, (id l).Perm l) ∧
    ((buildBoard demoPairs).length = 2 * demoPairs.length ∧
      (∀ i : Nat, i < demoPairs.length →
        (buildBoard demoPairs).countP (pairIdPred i) = 2) ∧
      (∀ (i : Nat) (t : Translation), demoPairs[i]? = some t →
        (∃ c ∈ buildBoard demoPairs, c.id = "input-" ++ Nat.repr i ∧
          c.content = t.input ∧ c.state = CardState.Initial) ∧
        (∃ c ∈ buildBoard demoPairs, c.id = "output-" ++ Nat.repr i ∧
          c.content = t.output ∧ c.state = CardState.Initial)) ∧
      (∀ c ∈ buildBoard demoPairs, c.state = CardState.Initial) ∧
      (id (buildBoard demoPairs)).Perm (buildBoard demoPairs)) :=
  ⟨fun l => List.Perm.refl l, spec_c8 demoPairs id (fun l => List.Perm.refl l)⟩

/-! ### The history store bug (claim C9)

`nextID` assigns decimal string ids `"0", "1", ...` and both `nextID` and
`loadHistory` rely on `allDocs({descending: true})`, but PouchDB collates
string keys character by character, so once the store holds eleven records
(ids `"0"` through `"10"`) the id `"10"` sorts between `"1"` and `"2"` and
the descending enumeration no longer lists the most recently stored record
first, contradicting `loadHistory`'s own documentation ("loading the n most
recent documents"). -/

/-- The document stored by the `(n+1)`-th successful save. -/
def mkDoc (n : Nat) (w : String) : StoredDoc :=
  { _id := Nat.repr n, input := w, output := w, lang_in := "es", lang_out := "en" }

/-- The store after eleven successive saves of distinct words: ids `"0"`
through `"10"`, in storage order. -/
def buggyStore : List StoredDoc :=
  (List.range 11).map (fun n => mkDoc n ("word" ++ Nat.repr n))

/-- Claim C9 fails on the code: on the reachable eleven-record store,
`loadHistory 1` returns the record with id `"9"` — the lexicographically
largest string key — while the most recently stored record is the one with
id `"10"` (the last one saved, as `nextID` on the ten-record store shows).
The recovery half of the claim does hold: the engine's retrieval wrapper
turns an unreachable store into the empty sequence. -/
theorem spec_c9_code_bug :
    loadHistory buggyStore 1 = [mkDoc 9 ("word" ++ Nat.repr 9)] ∧
    mkDoc 9 ("word" ++ Nat.repr 9) ≠ mkDoc 10 ("word" ++ Nat.repr 10) ∧
    buggyStore.getLast? = some (mkDoc 10 ("word" ++ Nat.repr 10)) ∧
    nextID ((List.range 10).map (fun n => mkDoc n ("word" ++ Nat.repr n)))
      = Nat.repr 10 ∧
    nextID buggyStore = Nat.repr 10 ∧
    Nat.repr 10 ∈ buggyStore.map StoredDoc._id ∧
    fetchTranslations none = [] := by
  decide

/-- Claim C10: `searchTranslations` interprets the search text as a
case-insensitive regular expression, not a literal substring: every returned
document belongs to the store and its `input` matches the regex; the
metacharacters `.` and `*` match non-literally (inputs `abc` and `abbbc` are
returned for the search texts `a.c` and `ab*c`, neither of which occurs in
them literally); and matching ignores letter case (`ABC` finds `abc`). -/
theorem spec_c10 :
    (∀ (db : List StoredDoc) (searchText : String),
      ∀ d ∈ searchTranslations db searchText,
        d ∈ db ∧ regexSearch searchText.data d.input.data = true) ∧
    (searchTranslations [⟨"0", "abc", "x", "en", "fr"⟩] "a.c"
        = [⟨"0", "abc", "x", "en", "fr"⟩] ∧
      isLiteralSubstring "a.c".data "abc".data = false) ∧
    (searchTranslations [⟨"0", "abbbc", "x", "en", "fr"⟩] "ab*c"
        = [⟨"0", "abbbc", "x", "en", "fr"⟩] ∧
      isLiteralSubstring "ab*c".data "abbbc".data = false) ∧
    (searchTranslations [⟨"0", "abc", "x", "en", "fr"⟩] "ABC"
        = [⟨"0", "abc", "x", "en", "fr"⟩] ∧
      searchTranslations [⟨"0", "abc", "x", "en", "fr"⟩] "xyz" = []) := by
  refine ⟨?_, ⟨by decide, by decide⟩, ⟨by decide, by decide⟩, by decide, by decide⟩
  intro db searchText d hd
  have h := List.mem_filter.mp hd
  exact ⟨h.1, h.2⟩

theorem spec_c10_witness :
    (⟨"0", "abc", "x", "en", "fr"⟩ : StoredDoc) ∈
      searchTranslations [⟨"0", "abc", "x", "en", "fr"⟩] "a.c" ∧
    ((⟨"0", "abc", "x", "en", "fr"⟩ : StoredDoc) ∈
        [(⟨"0", "abc", "x", "en", "fr"⟩ : StoredDoc)] ∧
      regexSearch "a.c".data "abc".data = true) :=
  ⟨by decide,
    spec_c10.1 [⟨"0", "abc", "x", "en", "fr"⟩] "a.c"
      ⟨"0", "abc", "x", "en", "fr"⟩ (by decide)⟩

end SimpleTranslator
